import Mathlib

/-!
Verification development for the django-eav2 attribute/value storage core
(`eav/models.py`, `eav/validators.py`, `eav/managers.py`).

The embedding models:
  * Python values flowing through the EAV pipeline (`PyVal`), with JSON
    documents (`JVal`) as the payload of Python dicts;
  * the database as explicit state (`DB`): `EnumValue`, `EnumGroup`,
    `Attribute` and `Value` rows, with Django ORM calls
    (`filter`/`get_or_create`/`update_or_create`/M2M `clear`/`add`)
    modelled as pure state transformers;
  * Python exceptions as an explicit error type (`PyExc`), with fallible
    code returning `Except PyExc _`.

Conventions: Django querysets / M2M managers are modelled by the list of
their elements; `datetime` values by an integer timestamp; Python `float`
and `Decimal` by `Rat` (no arithmetic is performed on them, only storage
and comparison); the polymorphic entity reference by a `(content-type id,
primary key)` pair.
-/

/-- The ten datatype tags of `Attribute.DATATYPE_CHOICES` in `eav/models.py`. -/
inductive Datatype where
  | text
  | float
  | decimal
  | int
  | date
  | bool
  | object
  | enum
  | enum_multi
  | json
deriving DecidableEq, Repr

/-- A JSON document, the payload of Python dict values handled by the
`value_json` property (`json.dumps` / `json.loads`). Object keys are
strings, as in any JSON text. -/
inductive JVal where
  | null : JVal
  | jbool (b : Bool) : JVal
  | jint (n : Int) : JVal
  | jstr (s : String) : JVal
  | jarr (elems : List JVal) : JVal
  | jobj (entries : List (String × JVal)) : JVal

/-- A Python value as it flows through validators, `save_value` and the
`value` property. `plist` models list-like collections (including
querysets and M2M managers, whose `.all()` is modelled as returning their
elements); `pdict` models a string-keyed JSON-representable dict;
`enumEV` an `EnumValue` model instance (`pk = none` when unsaved);
`pobj` an arbitrary Django model instance; `pdate` a
`datetime` as an integer timestamp; `pfloat`/`pdec` a Python
`float`/`Decimal` as an exact rational. -/
inductive PyVal where
  | pnone : PyVal
  | pbool (b : Bool) : PyVal
  | pint (n : Int) : PyVal
  | pfloat (q : Rat) : PyVal
  | pdec (q : Rat) : PyVal
  | pstr (s : String) : PyVal
  | pdate (t : Int) : PyVal
  | enumEV (pk : Option Nat) (value : String) : PyVal
  | plist (vs : List PyVal) : PyVal
  | pdict (kvs : List (String × JVal)) : PyVal
  | pobj (ct : Nat) (pk : Option Int) : PyVal

/-- Python exceptions that the modelled code can raise. `ValidationError`
and `IllegalAssignment` carry their message; `TypeError`, `ValueError`
and decimal `InvalidOperation` model the built-in coercion failures,
`AttributeError` a missing attribute, `DoesNotExist` /
`MultipleObjectsReturned` the Django lookup failures, `JSONDecodeError`
a `json.loads` failure. -/
inductive PyExc where
  | ValidationError (msg : String) : PyExc
  | IllegalAssignment (msg : String) : PyExc
  | TypeError : PyExc
  | ValueError : PyExc
  | InvalidOperation : PyExc
  | AttributeError (name : String) : PyExc
  | DoesNotExist : PyExc
  | MultipleObjectsReturned : PyExc
  | JSONDecodeError : PyExc
deriving DecidableEq, Repr

/-- An `EnumValue` row (`eav/models.py`): unique id, display string,
optional legacy alias. -/
structure EnumValueRow where
  id : Nat
  value : String
  legacy_value : Option String
deriving DecidableEq, Repr

/-- An `EnumGroup` row: name plus the M2M id-set of its `EnumValue`s. -/
structure EnumGroupRow where
  id : Nat
  name : String
  values : List Nat
deriving DecidableEq, Repr

/-- An `Attribute` row: the typed field definition (`eav/models.py`).
The scoping fields (`entity_ct`/`entity_id`), timestamps and description
play no role in the claims and are omitted. -/
structure Attribute where
  id : Nat
  datatype : Datatype
  name : String
  slug : String
  required : Bool
  enum_group : Option Nat
  display_order : Nat
deriving DecidableEq, Repr

/-- A `Value` row: the polymorphic entity reference, the owning attribute,
and one typed column per datatype. `value_enum_multi` is the M2M id-set
(the associative choice set, in insertion order); `value_object` is the
pair `generic_value_ct`/`generic_value_id`. -/
structure ValueRow where
  id : Nat
  entity_ct : Nat
  entity_id : Int
  attribute_id : Nat
  value_text : Option String
  value_float : Option Rat
  value_decimal : Option Rat
  value_int : Option Int
  value_date : Option Int
  value_bool : Option Bool
  value_enum : Option Nat
  value_enum_multi : List Nat
  generic_value_ct : Option Nat
  generic_value_id : Option Int
deriving DecidableEq, Repr

/-- The database state: the four EAV tables plus an id counter for
freshly created `Value` rows. -/
structure DB where
  enum_values : List EnumValueRow
  enum_groups : List EnumGroupRow
  attributes : List Attribute
  values : List ValueRow
  next_value_id : Nat
deriving DecidableEq, Repr

/-!
### Model of `json.dumps` / `json.loads`

The claims only use three facts about the Python JSON codec on
string-keyed JSON documents: serialization is injective, deserialization
is its left inverse, and a serialized document is never the empty
string. We model the codec by an explicit injective printer `jsonDumps`
with a verified parser `jsonLoads` (the byte-level format differs from
RFC 8259 — numbers are little-endian and strings length-prefixed — which
no claim observes).
-/

/-- The decimal digit character for `d < 10`. -/
def digitCh (d : Nat) : Char := Char.ofNat (48 + d)

/-- Is this character a decimal digit? -/
def isDigitCh (c : Char) : Bool := 48 ≤ c.toNat && c.toNat ≤ 57

/-- Little-endian decimal digits of a natural number (always nonempty). -/
def natLE (n : Nat) : List Char :=
  if h : n < 10 then [digitCh n]
  else digitCh (n % 10) :: natLE (n / 10)
decreasing_by exact Nat.div_lt_self (by omega) (by omega)

/-- Value of a digit character. -/
def chDigit (c : Char) : Nat := c.toNat - 48

/-- Read little-endian decimal digits back into a natural number. -/
def parseLE : List Char → Nat
  | [] => 0
  | c :: cs => chDigit c + 10 * parseLE cs

/-- Parse a little-endian number terminated by a semicolon. -/
def parseNatSemi (cs : List Char) : Option (Nat × List Char) :=
  let ds := cs.takeWhile isDigitCh
  let rest := cs.dropWhile isDigitCh
  if ds = [] then none
  else
    match rest with
    | ';' :: r => some (parseLE ds, r)
    | _ => none

/-- Parse a length-prefixed string body: `<len> ; <len chars>`. -/
def parseStrBody (cs : List Char) : Option (String × List Char) :=
  match parseNatSemi cs with
  | none => none
  | some (len, r) =>
      if len ≤ r.length then some (String.mk (r.take len), r.drop len) else none

mutual
/-- The printer modelling `json.dumps` (see the section comment). -/
def jenc : JVal → List Char
  | .null => ['n']
  | .jbool true => ['t']
  | .jbool false => ['f']
  | .jint n => (if n < 0 then 'm' else 'i') :: (natLE n.natAbs ++ [';'])
  | .jstr s => 's' :: (natLE s.data.length ++ ';' :: s.data)
  | .jarr vs => 'a' :: (jencList vs ++ ['e'])
  | .jobj kvs => 'o' :: (jencEntries kvs ++ ['e'])

/-- Printer for a JSON array body. -/
def jencList : List JVal → List Char
  | [] => []
  | v :: vs => jenc v ++ jencList vs

/-- Printer for a JSON object body (length-prefixed key, then value). -/
def jencEntries : List (String × JVal) → List Char
  | [] => []
  | (k, v) :: kvs => 's' :: (natLE k.data.length ++ ';' :: k.data) ++ jenc v ++ jencEntries kvs
end

mutual
/-- Node count of a JSON document, the fuel bound for the parser. -/
def jsz : JVal → Nat
  | .null | .jbool _ | .jint _ | .jstr _ => 1
  | .jarr vs => 1 + jszL vs
  | .jobj kvs => 1 + jszE kvs

/-- Node count of an array body. -/
def jszL : List JVal → Nat
  | [] => 1
  | v :: vs => jsz v + jszL vs

/-- Node count of an object body. -/
def jszE : List (String × JVal) → Nat
  | [] => 1
  | (_, v) :: kvs => jsz v + jszE kvs
end

mutual
/-- The fueled parser modelling `json.loads`, inverse of `jenc`. -/
def jdecF : Nat → List Char → Option (JVal × List Char)
  | 0, _ => none
  | _ + 1, [] => none
  | fuel + 1, c :: cs =>
    if c = 'n' then some (.null, cs)
    else if c = 't' then some (.jbool true, cs)
    else if c = 'f' then some (.jbool false, cs)
    else if c = 'i' then
      match parseNatSemi cs with
      | some (n, r) => some (.jint (n : Int), r)
      | none => none
    else if c = 'm' then
      match parseNatSemi cs with
      | some (n, r) => some (.jint (-(n : Int)), r)
      | none => none
    else if c = 's' then
      match parseStrBody cs with
      | some (s, r) => some (.jstr s, r)
      | none => none
    else if c = 'a' then
      match jdecItems fuel cs with
      | some (vs, r) => some (.jarr vs, r)
      | none => none
    else if c = 'o' then
      match jdecEntries fuel cs with
      | some (kvs, r) => some (.jobj kvs, r)
      | none => none
    else none

/-- Fueled parser for an array body up to the closing mark. -/
def jdecItems : Nat → List Char → Option (List JVal × List Char)
  | 0, _ => none
  | _ + 1, [] => none
  | fuel + 1, c :: cs =>
    if c = 'e' then some ([], cs)
    else
      match jdecF fuel (c :: cs) with
      | none => none
      | some (v, r) =>
        match jdecItems fuel r with
        | none => none
        | some (vs, r') => some (v :: vs, r')

/-- Fueled parser for an object body up to the closing mark. -/
def jdecEntries : Nat → List Char → Option (List (String × JVal) × List Char)
  | 0, _ => none
  | _ + 1, [] => none
  | fuel + 1, c :: cs =>
    if c = 'e' then some ([], cs)
    else if c = 's' then
      match parseStrBody cs with
      | none => none
      | some (k, r) =>
        match jdecF fuel r with
        | none => none
        | some (v, r') =>
          match jdecEntries fuel r' with
          | none => none
          | some (kvs, r'') => some ((k, v) :: kvs, r'')
    else none
end

/-- Model of `json.dumps`: serialize a JSON document to its text. -/
def jsonDumps (v : JVal) : String := String.mk (jenc v)

/-- Model of `json.loads`: parse a JSON text, `none` on invalid input. -/
def jsonLoads (s : String) : Option JVal :=
  match jdecF (s.data.length + 1) s.data with
  | some (v, []) => some v
  | _ => none

/-!
### `eav/validators.py`

Each validator takes a Python value and either returns `()` or raises.
`validate_float`, `validate_decimal` and `validate_int` call the Python
coercions `float()` / `Decimal()` / `int()` and catch **only**
`ValueError`: a non-numeric string makes `float()`/`int()` raise
`ValueError` (converted to `ValidationError`), but a value of
non-coercible type (None, dict, list, ...) makes them raise `TypeError`,
and a non-numeric string makes `Decimal()` raise
`decimal.InvalidOperation` — neither of which is caught.
-/

/-- Simplified recognizer for Python numeric string literals: optional
sign, digits with at most one decimal point (exponents, whitespace and
underscores are not modelled; the claims only probe clearly valid or
clearly invalid strings). -/
def numLit (s : String) : Bool :=
  let cs :=
    match s.data with
    | '+' :: r => r
    | '-' :: r => r
    | r => r
  !cs.isEmpty && cs.all (fun c => isDigitCh c || c = '.') &&
    cs.any isDigitCh && cs.count '.' ≤ 1

/-- Integer string literals: optional sign, one or more digits. -/
def intLit (s : String) : Bool :=
  let cs :=
    match s.data with
    | '+' :: r => r
    | '-' :: r => r
    | r => r
  !cs.isEmpty && cs.all isDigitCh

/-- Model of the Python `float()` coercion: numbers and booleans
succeed, strings succeed iff they parse, everything else raises
`TypeError`; a failing string raises `ValueError`. -/
def pyFloatCo : PyVal → Except PyExc Unit
  | .pint _ => .ok ()
  | .pfloat _ => .ok ()
  | .pdec _ => .ok ()
  | .pbool _ => .ok ()
  | .pstr s => if numLit s then .ok () else .error .ValueError
  | _ => .error .TypeError

/-- Model of the Python `int()` coercion (truncating for floats and
decimals): numbers and booleans succeed, strings succeed iff they are
integer literals, everything else raises `TypeError`; a failing string
raises `ValueError`. -/
def pyIntCo : PyVal → Except PyExc Unit
  | .pint _ => .ok ()
  | .pfloat _ => .ok ()
  | .pdec _ => .ok ()
  | .pbool _ => .ok ()
  | .pstr s => if intLit s then .ok () else .error .ValueError
  | _ => .error .TypeError

/-- Model of the `Decimal()` constructor: numbers and booleans succeed;
a failing string raises `decimal.InvalidOperation` (an
`ArithmeticError`, *not* a `ValueError`); a malformed sign/digits/exp
sequence raises `ValueError`; other types raise `TypeError`. -/
def pyDecimalCo : PyVal → Except PyExc Unit
  | .pint _ => .ok ()
  | .pfloat _ => .ok ()
  | .pdec _ => .ok ()
  | .pbool _ => .ok ()
  | .pstr s => if numLit s then .ok () else .error .InvalidOperation
  | .plist _ => .error .ValueError
  | _ => .error .TypeError

/-- Model of `validate_text`: requires a `str`. -/
def validate_text : PyVal → Except PyExc Unit
  | .pstr _ => .ok ()
  | _ => .error (.ValidationError "Must be str or unicode")

/-- Model of `validate_json`: requires a `dict`. -/
def validate_json : PyVal → Except PyExc Unit
  | .pdict _ => .ok ()
  | _ => .error (.ValidationError "Must be dict")

/-- Model of `validate_float`: `float(value)` catching only `ValueError`. -/
def validate_float (v : PyVal) : Except PyExc Unit :=
  match pyFloatCo v with
  | .ok _ => .ok ()
  | .error .ValueError => .error (.ValidationError "Must be a float")
  | .error e => .error e

/-- Model of `validate_decimal`: `Decimal(value)` catching only `ValueError`. -/
def validate_decimal (v : PyVal) : Except PyExc Unit :=
  match pyDecimalCo v with
  | .ok _ => .ok ()
  | .error .ValueError => .error (.ValidationError "Must be a Decimal")
  | .error e => .error e

/-- Model of `validate_int`: `int(value)` catching only `ValueError`. -/
def validate_int (v : PyVal) : Except PyExc Unit :=
  match pyIntCo v with
  | .ok _ => .ok ()
  | .error .ValueError => .error (.ValidationError "Must be an integer")
  | .error e => .error e

/-- Model of `validate_date`: requires a `datetime` or `date` instance. -/
def validate_date : PyVal → Except PyExc Unit
  | .pdate _ => .ok ()
  | _ => .error (.ValidationError "Must be a date or datetime")

/-- Model of `validate_bool`: requires a strict `bool`. -/
def validate_bool : PyVal → Except PyExc Unit
  | .pbool _ => .ok ()
  | _ => .error (.ValidationError "Must be a boolean")

/-- Model of `validate_object`: requires a saved Django model instance (`pk`
truthy; a `pk` of `0` is falsy in Python and also rejected). -/
def validate_object : PyVal → Except PyExc Unit
  | .pobj _ (some p) =>
      if p = 0 then .error (.ValidationError "Model has not been saved yet") else .ok ()
  | .pobj _ Option.none => .error (.ValidationError "Model has not been saved yet")
  | _ => .error (.ValidationError "Must be a django model object instance")

/-- Model of `validate_enum`: rejects only an *unsaved* `EnumValue` instance;
every other value (including arbitrary non-`EnumValue` values) passes. -/
def validate_enum : PyVal → Except PyExc Unit
  | .enumEV Option.none _ => .error (.ValidationError "EnumValue has not been saved yet")
  | _ => .ok ()

/-- Model of `validate_enum_multi`: iterates `value.all()` — so the argument must
be a queryset-like collection (`plist`); on anything else Python raises
`AttributeError`. Each element that is an `EnumValue` must be saved. -/
def validate_enum_multi : PyVal → Except PyExc Unit
  | .plist vs =>
      if vs.any (fun v => match v with | .enumEV Option.none _ => true | _ => false) then
        .error (.ValidationError "EnumValue has not been saved yet")
      else .ok ()
  | _ => .error (.AttributeError "all")

/-!
### `eav/models.py` — `Attribute.get_validators` / `validate_value`
-/

/-- Model of `Attribute.get_validators`: the `DATATYPE_VALIDATORS` table lookup
(returned as a singleton list in the source; modelled as the function). -/
def datatypeValidator : Datatype → (PyVal → Except PyExc Unit)
  | .text => validate_text
  | .float => validate_float
  | .decimal => validate_decimal
  | .int => validate_int
  | .date => validate_date
  | .bool => validate_bool
  | .object => validate_object
  | .enum => validate_enum
  | .enum_multi => validate_enum_multi
  | .json => validate_json

/-- Model of `self.enum_group.values.all()`: resolve an attribute's enum group id
to the `EnumValue` rows of its M2M set (`DoesNotExist` on a broken FK). -/
def enumGroupMembers (db : DB) (gid : Nat) : Except PyExc (List EnumValueRow) :=
  match db.enum_groups.find? (fun g => g.id = gid) with
  | Option.none => .error .DoesNotExist
  | Option.some g => .ok (db.enum_values.filter (fun ev => g.values.contains ev.id))

/-- The string used when an `EnumValue` CharField is compared against a
Python value in a `filter(value=...)` / `filter(value__in=...)` lookup:
only strings compare equal to the stored choice strings (non-string
probe values simply match nothing). -/
def lookupStr : PyVal → Option String
  | .pstr s => Option.some s
  | _ => Option.none

/-- Model of `value.all()` on the collection passed to the multi-choice check:
queryset-like collections yield their elements, anything else raises
`AttributeError` (Python duck typing). -/
def pyAll : PyVal → Except PyExc (List PyVal)
  | .plist vs => .ok vs
  | _ => .error (.AttributeError "all")

/-- The message of the choice ValidationError
(the source formats the offending value and the attribute into the
message; the interpolated rendering is abbreviated to the attribute
name). -/
def choiceErrMsg (a : Attribute) : String :=
  "is not a valid choice for " ++ a.name

/-- Model of `Attribute.validate_value`: run the datatype validator, then for
single-choice check membership of the value (or its `.value` string) in
the enum group, and for multi-choice compare the number of matching
group members with the number of provided elements. A missing
`enum_group` makes `self.enum_group.values` raise `AttributeError`. -/
def Attribute.validate_value (db : DB) (a : Attribute) (v : PyVal) : Except PyExc Unit :=
  match datatypeValidator a.datatype v with
  | .error e => .error e
  | .ok _ =>
    if a.datatype = .enum then
      let sv : PyVal :=
        match v with
        | .enumEV _ s => .pstr s
        | x => x
      match a.enum_group with
      | Option.none => .error (.AttributeError "values")
      | Option.some gid =>
        match enumGroupMembers db gid with
        | .error e => .error e
        | .ok members =>
          let hit :=
            match lookupStr sv with
            | Option.some s => members.any (fun ev => ev.value = s)
            | Option.none => false
          if hit then .ok () else .error (.ValidationError (choiceErrMsg a))
    else if a.datatype = .enum_multi then
      match pyAll v with
      | .error e => .error e
      | .ok elems =>
        let strs : List PyVal := elems.map (fun x =>
          match x with
          | .enumEV _ s => .pstr s
          | y => y)
        match a.enum_group with
        | Option.none => .error (.AttributeError "values")
        | Option.some gid =>
          match enumGroupMembers db gid with
          | .error e => .error e
          | .ok members =>
            let cnt := members.countP (fun ev =>
              strs.any (fun x =>
                match lookupStr x with
                | Option.some s => ev.value = s
                | Option.none => false))
            if cnt = strs.length then .ok ()
            else .error (.ValidationError (choiceErrMsg a))
    else .ok ()

/-!
### `eav/models.py` — `Attribute.save_value` and the `Value` accessors
-/

/-- The Python membership test `value in (None, '', [])` in `save_value`
(`in` uses `==`, so only `None`, the empty string and values equal to the
empty *list* qualify — an empty dict or other empty collections are not
equal to `[]`). -/
def isEmptyVal : PyVal → Bool
  | .pnone => true
  | .pstr s => s = ""
  | .plist vs => vs.isEmpty
  | _ => false

/-- Does a `Value` row belong to `(attribute, entity_ct, entity_id)` —
the filter used by `self.value_set.filter(entity_ct=ct, entity_id=pk)`
and by the `get_or_create` / `update_or_create` lookups. -/
def valueKeyMatch (aid ct : Nat) (pk : Int) (r : ValueRow) : Bool :=
  r.attribute_id = aid && r.entity_ct = ct && r.entity_id = pk

/-- A freshly created `Value` row with every typed column null. -/
def blankRow (rid aid ct : Nat) (pk : Int) : ValueRow :=
  { id := rid
    entity_ct := ct
    entity_id := pk
    attribute_id := aid
    value_text := Option.none
    value_float := Option.none
    value_decimal := Option.none
    value_int := Option.none
    value_date := Option.none
    value_bool := Option.none
    value_enum := Option.none
    value_enum_multi := []
    generic_value_ct := Option.none
    generic_value_id := Option.none }

/-- Setting `value_{datatype}` (the `defaults` entry of
`update_or_create`): write the one typed column matching the datatype.
The json datatype sets the `value_json` property, which serializes the
dict into the text column. Values whose Python type does not match the
column raise (the model rejects them up front where Django would fail at
the database adaptation layer; every claim only stores
canonically-typed values through this path). -/
def setColumn (dt : Datatype) (v : PyVal) : Except PyExc (ValueRow → ValueRow)  :=
  match dt, v with
  | .text, .pstr s => .ok (fun r => { r with value_text := Option.some s })
  | .float, .pfloat q => .ok (fun r => { r with value_float := Option.some q })
  | .decimal, .pdec q => .ok (fun r => { r with value_decimal := Option.some q })
  | .int, .pint n => .ok (fun r => { r with value_int := Option.some n })
  | .date, .pdate t => .ok (fun r => { r with value_date := Option.some t })
  | .bool, .pbool b => .ok (fun r => { r with value_bool := Option.some b })
  | .object, .pobj c (Option.some p) =>
      .ok (fun r => { r with generic_value_ct := Option.some c
                             generic_value_id := Option.some p })
  | .enum, .enumEV (Option.some i) _ => .ok (fun r => { r with value_enum := Option.some i })
  | .json, .pdict kvs =>
      .ok (fun r => { r with value_text := Option.some (jsonDumps (JVal.jobj kvs)) })
  | _, _ => .error .TypeError

/-- The ids of the `EnumValue` instances in the collection passed to the
multi-choice `value_obj.value.add(*value)`; adding anything that is not
a saved `EnumValue` instance raises. -/
def evIds : List PyVal → Except PyExc (List Nat)
  | [] => .ok []
  | .enumEV (Option.some i) _ :: rest =>
      match evIds rest with
      | .ok is => .ok (i :: is)
      | .error e => .error e
  | _ :: _ => .error .TypeError

/-- M2M `add(*ids)` onto a current id-set: appends each id not already
present (Django's `add` ignores duplicates). -/
def m2mAdd (cur : List Nat) (ids : List Nat) : List Nat :=
  ids.foldl (fun acc i => if acc.contains i then acc else acc ++ [i]) cur

/-- The row-level effect shared by
`self.value_set.update_or_create(..., defaults={...})` and
`self.value_set.get_or_create(...)` followed by a field update: when no
row matches the `(attribute, entity_ct, entity_id)` key, create a fresh
row and apply `upd` to it; when exactly one matches, apply `upd` to it in
place; more than one match makes the underlying `get` raise. -/
def valueUpdateOrCreate (db : DB) (aid ct : Nat) (pk : Int)
    (upd : ValueRow → ValueRow) : Except PyExc DB :=
  match db.values.filter (valueKeyMatch aid ct pk) with
  | [] =>
    .ok { db with values := db.values ++ [upd (blankRow db.next_value_id aid ct pk)]
                  next_value_id := db.next_value_id + 1 }
  | [_] =>
    .ok { db with values := db.values.map (fun r =>
      if valueKeyMatch aid ct pk r then upd r else r) }
  | _ => .error .MultipleObjectsReturned

/-- Model of `Attribute.save_value(entity, value)` from `eav/models.py`:
empty values (`None`, the empty string, the empty list) delete any
existing row for the pair;
multi-choice get-or-creates the row, clears the M2M set when the row
already existed, and adds the new ids (a fresh row's M2M set starts
empty, so both the created and the cleared row receive exactly
`m2mAdd [] ids`); every other datatype update-or-creates the row setting
`value_{datatype}`. -/
def Attribute.save_value (db : DB) (a : Attribute) (ct : Nat) (pk : Int) (v : PyVal) :
    Except PyExc DB :=
  if isEmptyVal v then
    .ok { db with values := db.values.filter (fun r => !(valueKeyMatch a.id ct pk r)) }
  else if a.datatype = .enum_multi then
    match v with
    | .plist vs =>
      match evIds vs with
      | .error e => .error e
      | .ok ids =>
        valueUpdateOrCreate db a.id ct pk (fun r => { r with value_enum_multi := m2mAdd [] ids })
    | _ => .error .TypeError
  else
    match setColumn a.datatype v with
    | .error e => .error e
    | .ok upd => valueUpdateOrCreate db a.id ct pk upd

/-- The `Value.value_json` property getter: `json.loads(self.value_text)`
when the text column is truthy (non-null and non-empty), else `{}`.
An undecodable text raises `JSONDecodeError`. -/
def value_json_get (t : Option String) : Except PyExc JVal :=
  match t with
  | Option.none => .ok (JVal.jobj [])
  | Option.some s =>
    if s = "" then .ok (JVal.jobj [])
    else
      match jsonLoads s with
      | Option.some v => .ok v
      | Option.none => .error .JSONDecodeError

/-- The `Value.value_json` property setter:
`self.value_text = json.dumps(new_value)`. -/
def value_json_set (v : JVal) : Option String := Option.some (jsonDumps v)

mutual
/-- Convert a decoded JSON document back to the Python value
`json.loads` returns. -/
def jvalToPy : JVal → PyVal
  | .null => .pnone
  | .jbool b => .pbool b
  | .jint n => .pint n
  | .jstr s => .pstr s
  | .jarr vs => .plist (jvalToPyList vs)
  | .jobj kvs => .pdict kvs

/-- Convert a list of decoded JSON documents. -/
def jvalToPyList : List JVal → List PyVal
  | [] => []
  | v :: vs => jvalToPy v :: jvalToPyList vs
end

/-- Model of `Value._get_value`, which reads the column named by the
datatype of the owning attribute — that is, it reads whichever typed column the owning attribute's datatype selects
(not whichever column happens to be populated). A null column reads as
`None`; `value_enum` resolves its FK; `value_enum_multi` yields the
related manager, modelled as the list of its `EnumValue` members;
`value_json` goes through the property getter. -/
def rowValue (db : DB) (dt : Datatype) (r : ValueRow) : Except PyExc PyVal :=
  match dt with
  | .text =>
    .ok (match r.value_text with | Option.some s => .pstr s | Option.none => .pnone)
  | .float =>
    .ok (match r.value_float with | Option.some q => .pfloat q | Option.none => .pnone)
  | .decimal =>
    .ok (match r.value_decimal with | Option.some q => .pdec q | Option.none => .pnone)
  | .int =>
    .ok (match r.value_int with | Option.some n => .pint n | Option.none => .pnone)
  | .date =>
    .ok (match r.value_date with | Option.some t => .pdate t | Option.none => .pnone)
  | .bool =>
    .ok (match r.value_bool with | Option.some b => .pbool b | Option.none => .pnone)
  | .object =>
    .ok (match r.generic_value_ct, r.generic_value_id with
         | Option.some c, Option.some p => .pobj c (Option.some p)
         | _, _ => .pnone)
  | .enum =>
    match r.value_enum with
    | Option.none => .ok .pnone
    | Option.some i =>
      match db.enum_values.find? (fun ev => ev.id = i) with
      | Option.some ev => .ok (.enumEV (Option.some ev.id) ev.value)
      | Option.none => .error .DoesNotExist
  | .enum_multi =>
    match r.value_enum_multi.mapM (fun i => db.enum_values.find? (fun ev => ev.id = i)) with
    | Option.some evs => .ok (.plist (evs.map (fun ev => .enumEV (Option.some ev.id) ev.value)))
    | Option.none => .error .DoesNotExist
  | .json =>
    match value_json_get r.value_text with
    | .ok j => .ok (jvalToPy j)
    | .error e => .error e

/-- Model of `Entity.get_value_by_attribute(attribute).value`: fetch the single
`Value` row for the `(entity, attribute)` pair (`Value.DoesNotExist`
when absent) and read its `value` property. -/
def readValue (db : DB) (a : Attribute) (ct : Nat) (pk : Int) : Except PyExc PyVal :=
  match db.values.filter (valueKeyMatch a.id ct pk) with
  | [] => .error .DoesNotExist
  | [r] => rowValue db a.datatype r
  | _ => .error .MultipleObjectsReturned

/-- The at-most-one-`Value`-row-per-`(entity_ct, entity_id, attribute)`
uniqueness constraint (`Value.Meta.unique_together`), together with
referential integrity of enum ids (distinct `EnumValue` ids). -/
def wfDB (db : DB) : Prop :=
  db.values.Pairwise (fun r s =>
    ¬(r.attribute_id = s.attribute_id ∧ r.entity_ct = s.entity_ct ∧
      r.entity_id = s.entity_id)) ∧
  (db.enum_values.map (fun ev => ev.id)).Nodup

/-!
### `eav/models.py` — the `Entity` proxy

The proxy's `__dict__` holds `instance`, `ct`, the user's pending
attribute assignments (set by plain `setattr`), and — after any call to
`get_all_attributes` — the `_attributes` queryset cache that
`get_all_attributes` unconditionally stores under the key
`_attributes` via `setattr`. `get_object_attributes()`
subtracts only `instance` and `ct` from the `__dict__` key set.
The model keeps the pending bag (keys are attribute-slug-like strings,
never `_attributes`) and reflects the cache key explicitly where the
key set is computed.
-/

/-- The pending-assignment bag plus entity identity of an `Entity`
proxy (`cls` is the rendering of `self.instance.__class__`). -/
structure EavEntity where
  cls : String
  ct : Nat
  pk : Int
  pending : List (String × PyVal)

/-- Python dict lookup on the model of a dict. -/
def dictGet (d : List (String × PyVal)) (k : String) : Option PyVal :=
  (d.find? (fun kv => kv.1 = k)).map (fun kv => kv.2)

/-- Python `dict.pop(k, None)` restricted to the remaining dict. -/
def dictPop (d : List (String × PyVal)) (k : String) : List (String × PyVal) :=
  d.filter (fun kv => kv.1 ≠ k)

/-- Python dict insertion (overwriting an existing key, as the
last-wins dict comprehension in `get_values_dict` does). -/
def dictInsert (d : List (String × PyVal)) (k : String) (v : PyVal) :
    List (String × PyVal) :=
  d.filter (fun kv => kv.1 ≠ k) ++ [(k, v)]

/-- Model of `Entity.get_values_dict`, the dict comprehension keying
each of `self.get_values()` by its attribute slug: every stored `Value` row of the entity keyed by
its own attribute's slug (the attribute resolved through the row's FK). -/
def get_values_dict (db : DB) (ct : Nat) (pk : Int) :
    Except PyExc (List (String × PyVal)) :=
  (db.values.filter (fun r => r.entity_ct = ct && r.entity_id = pk)).foldlM
    (fun d r =>
      match db.attributes.find? (fun a => a.id = r.attribute_id) with
      | Option.none => .error .DoesNotExist
      | Option.some a =>
        match rowValue db a.datatype r with
        | .error e => .error e
        | .ok pv => .ok (dictInsert d a.slug pv))
    []

/-- One iteration of the `validate_attributes` loop for one attribute:
take the pending assignment if present, else pop the pre-loaded stored
value; `None` fails for a required attribute, any other value goes
through `validate_value` with a `ValidationError` re-wrapped to name the
slug (other exception kinds propagate unchanged). Returns the remaining
stored-value dict. -/
def attrStep (db : DB) (pending : List (String × PyVal))
    (vd : List (String × PyVal)) (a : Attribute) :
    Except PyExc (List (String × PyVal)) :=
  let resolved : PyVal :=
    match dictGet pending a.slug with
    | Option.some x => x
    | Option.none =>
      match dictGet vd a.slug with
      | Option.some x => x
      | Option.none => .pnone
  let vd2 := dictPop vd a.slug
  match resolved with
  | .pnone =>
    if a.required then .error (.ValidationError (a.slug ++ " EAV field cannot be blank"))
    else .ok vd2
  | v =>
    match Attribute.validate_value db a v with
    | .ok _ => .ok vd2
    | .error (.ValidationError m) =>
      .error (.ValidationError (a.slug ++ " EAV field " ++ m))
    | .error e => .error e

/-- The `for attribute in self.get_all_attributes()` loop of
`validate_attributes`, threading the stored-value dict. -/
def validateLoop (db : DB) (pending : List (String × PyVal)) :
    List Attribute → List (String × PyVal) → Except PyExc (List (String × PyVal))
  | [], vd => .ok vd
  | a :: rest, vd =>
    match attrStep db pending vd a with
    | .ok vd2 => validateLoop db pending rest vd2
    | .error e => .error e

/-- Model of `Entity.validate_attributes`. After the per-attribute loop,
`illegal = values_dict or (self.get_object_attributes() -
self.get_all_attribute_slugs())`: the leftover stored-value slugs if
nonempty, else the proxy's `__dict__` keys (pending keys **plus** the
`_attributes` cache key that the loop's own `get_all_attributes` call
just stored) minus `instance`/`ct` and minus the known slugs; a nonempty
result raises `IllegalAssignmentException` naming the host class and the
offending keys. -/
def Entity.validate_attributes (db : DB) (attrs : List Attribute) (e : EavEntity) :
    Except PyExc Unit :=
  match get_values_dict db e.ct e.pk with
  | .error ex => .error ex
  | .ok vd0 =>
    match validateLoop db e.pending attrs vd0 with
    | .error ex => .error ex
    | .ok leftover =>
      match (if leftover.isEmpty then
          ((e.pending.map (fun kv => kv.1)) ++ ["_attributes"]).filter
            (fun k => !((attrs.map (fun a => a.slug)).contains k))
        else leftover.map (fun kv => kv.1)) with
      | [] => .ok ()
      | k :: ks =>
        .error (.IllegalAssignment
          ("Instance of the class " ++ e.cls ++ " cannot have values for attributes: " ++
            String.intercalate ", " (k :: ks) ++ "."))

/-!
### `eav/managers.py` — `EntityManager`
-/

/-- The per-model registration config relevant to the manager: the name
under which the proxy is exposed (the EAV kwargs prefix is
the `eav_attr` name followed by two underscores) and the
`manager_only` flag. -/
structure EavConfig where
  eav_attr : String
  manager_only : Bool
deriving DecidableEq, Repr

/-- A host model instance: its plain field assignments plus the EAV
assignments staged on its proxy. -/
structure HostRecord where
  fields : List (String × PyVal)
  eav_pending : List (String × PyVal)

/-- The host model's table. -/
structure HostDB where
  rows : List HostRecord

mutual
/-- Python `==` on modelled values (structural; used by the manager's
field lookups). -/
def pyEqb : PyVal → PyVal → Bool
  | .pnone, .pnone => true
  | .pbool a, .pbool b => a = b
  | .pint a, .pint b => a = b
  | .pfloat a, .pfloat b => a = b
  | .pdec a, .pdec b => a = b
  | .pstr a, .pstr b => a = b
  | .pdate a, .pdate b => a = b
  | .enumEV i a, .enumEV j b => i = j && a = b
  | .plist xs, .plist ys => pyEqbList xs ys
  | .pdict xs, .pdict ys => jEqbEntries xs ys
  | .pobj c p, .pobj d q => c = d && p = q
  | _, _ => false

/-- Python `==` on lists of modelled values. -/
def pyEqbList : List PyVal → List PyVal → Bool
  | [], [] => true
  | x :: xs, y :: ys => pyEqb x y && pyEqbList xs ys
  | _, _ => false

/-- Python `==` on modelled JSON documents. -/
def jEqb : JVal → JVal → Bool
  | .null, .null => true
  | .jbool a, .jbool b => a = b
  | .jint a, .jint b => a = b
  | .jstr a, .jstr b => a = b
  | .jarr xs, .jarr ys => jEqbList xs ys
  | .jobj xs, .jobj ys => jEqbEntries xs ys
  | _, _ => false

/-- Python `==` on lists of JSON documents. -/
def jEqbList : List JVal → List JVal → Bool
  | [], [] => true
  | x :: xs, y :: ys => jEqb x y && jEqbList xs ys
  | _, _ => false

/-- Python `==` on JSON object entry lists. -/
def jEqbEntries : List (String × JVal) → List (String × JVal) → Bool
  | [], [] => true
  | (k, x) :: xs, (l, y) :: ys => k = l && jEqb x y && jEqbEntries xs ys
  | _, _ => false
end

/-- Does a host record match every lookup kwarg (`self.get(**kwargs)`,
plain field equality)? -/
def hostMatch (kwargs : List (String × PyVal)) (r : HostRecord) : Bool :=
  kwargs.all (fun kv =>
    match (r.fields.find? (fun f => f.1 = kv.1)).map (fun f => f.2) with
    | Option.some v => pyEqb v kv.2
    | Option.none => false)

/-- Model of `self.get(**kwargs)` on the host manager. -/
def managerGet (db : HostDB) (kwargs : List (String × PyVal)) : Except PyExc HostRecord :=
  match db.rows.filter (hostMatch kwargs) with
  | [] => .error .DoesNotExist
  | [r] => .ok r
  | _ => .error .MultipleObjectsReturned

/-- Model of `EntityManager.create(**kwargs)`: when the model is registered and
not `manager_only`, split kwargs on the eav-attr-underscore prefix,
create the record from the native kwargs and stage the EAV kwargs on the
proxy; otherwise an ordinary create. (The post-save proxy flush is glue
outside this core.) -/
def EntityManager.create (cfg : Option EavConfig) (db : HostDB)
    (kwargs : List (String × PyVal)) : HostDB × HostRecord :=
  match cfg with
  | Option.none =>
    let r : HostRecord := { fields := kwargs, eav_pending := [] }
    ({ rows := db.rows ++ [r] }, r)
  | Option.some c =>
    if c.manager_only then
      let r : HostRecord := { fields := kwargs, eav_pending := [] }
      ({ rows := db.rows ++ [r] }, r)
    else
      let prefixStr := c.eav_attr ++ "__"
      let r : HostRecord :=
        { fields := kwargs.filter (fun kv => !(kv.1.startsWith prefixStr))
          eav_pending := (kwargs.filter (fun kv => kv.1.startsWith prefixStr)).map
            (fun kv => (kv.1.drop prefixStr.length, kv.2)) }
      ({ rows := db.rows ++ [r] }, r)

/-- Model of `EntityManager.update_or_create(defaults=None, **kwargs)` from
`eav/managers.py`. Inside one transaction it does
`obj = self.select_for_update().get(**kwargs)` and then
`obj.get_queryset().update(**kwargs)` — but `obj` is a model instance
and model instances have no `get_queryset` attribute, so the found path
raises `AttributeError`; note that even as written the update would use
the lookup `kwargs`, and `defaults` is never read after its
normalization. On `DoesNotExist` it runs the EAV-splitting `create` and
returns `(obj, True)`. -/
def EntityManager.update_or_create (cfg : Option EavConfig) (db : HostDB)
    (defaults : List (String × PyVal)) (kwargs : List (String × PyVal)) :
    Except PyExc (HostDB × HostRecord × Bool) :=
  match managerGet db kwargs with
  | .ok _obj => .error (.AttributeError "get_queryset")
  | .error .DoesNotExist =>
    let (db2, obj) := EntityManager.create cfg db kwargs
    .ok (db2, obj, true)
  | .error e => .error e

/-!
### Concrete fixtures used by counterexamples and witnesses
-/

/-- A plain text attribute (`Color`). -/
def attrColor : Attribute :=
  { id := 1, datatype := .text, name := "Color", slug := "color",
    required := false, enum_group := Option.none, display_order := 1 }

/-- A json attribute (`Meta`). -/
def attrMeta : Attribute :=
  { id := 2, datatype := .json, name := "Meta", slug := "meta",
    required := false, enum_group := Option.none, display_order := 2 }

/-- A required int attribute (`Height`). -/
def attrHeight : Attribute :=
  { id := 3, datatype := .int, name := "Height", slug := "height",
    required := true, enum_group := Option.none, display_order := 3 }

/-- The saved choice token `yes`. -/
def evYes : EnumValueRow := { id := 1, value := "yes", legacy_value := Option.none }

/-- The saved choice token `no`. -/
def evNo : EnumValueRow := { id := 2, value := "no", legacy_value := Option.none }

/-- The enum group over `yes`/`no`. -/
def grpYN : EnumGroupRow := { id := 1, name := "YN", values := [1, 2] }

/-- A required single-choice attribute over the `yes`/`no` group. -/
def attrFever : Attribute :=
  { id := 4, datatype := .enum, name := "Fever", slug := "fever",
    required := true, enum_group := Option.some 1, display_order := 4 }

/-- A multi-choice attribute over the `yes`/`no` group. -/
def attrTags : Attribute :=
  { id := 5, datatype := .enum_multi, name := "Tags", slug := "tags",
    required := false, enum_group := Option.some 1, display_order := 5 }

/-- A catalog with the five fixture attributes and no stored values. -/
def dbEmpty : DB :=
  { enum_values := [evYes, evNo], enum_groups := [grpYN],
    attributes := [attrColor, attrMeta, attrHeight, attrFever, attrTags],
    values := [], next_value_id := 1 }

/-- The state of `dbEmpty` after `save_value` stores `color = "red"` for entity `(1, 7)`. -/
def dbRed : DB :=
  { dbEmpty with
    values := [{ blankRow 1 1 1 7 with value_text := Option.some "red" }]
    next_value_id := 2 }

/-- The state of `dbEmpty` after `save_value` stores `tags = [yes]` for entity `(1, 7)`. -/
def dbTags : DB :=
  { dbEmpty with
    values := [{ blankRow 1 5 1 7 with value_enum_multi := [1] }]
    next_value_id := 2 }

/-- An entity proxy for host `(1, 7)` with no pending assignments. -/
def entClean : EavEntity := { cls := "Patient", ct := 1, pk := 7, pending := [] }

/-- A registered host config exposing the proxy as `eav`. -/
def hostCfg : EavConfig := { eav_attr := "eav", manager_only := false }

/-- A host record with one plain field. -/
def hostRec : HostRecord := { fields := [("name", PyVal.pstr "x")], eav_pending := [] }

/-- A host table containing `hostRec`. -/
def hostTable : HostDB := { rows := [hostRec] }

/-- An empty host table. -/
def hostTableEmpty : HostDB := { rows := [] }

/-!
### Canonical values per datatype

`canonicalVal db dt v` says the Python value `v` has the canonical type
for the typed column of datatype `dt`: `str` for text, `float` for
float, `Decimal` with at most two decimal places for decimal (the
`DecimalField(max_digits=14, decimal_places=2)` column quantizes any
finer value at the database layer), `int` for int, `datetime` for date,
`bool` for bool, a saved model instance for object, a saved `EnumValue`
of the catalog for single-choice, a duplicate-free list of saved
`EnumValue`s for multi-choice, and a string-keyed JSON dict for json.
-/

/-- See the section comment. -/
def canonicalVal (db : DB) (dt : Datatype) (v : PyVal) : Prop :=
  match dt with
  | .text => ∃ s, v = .pstr s
  | .float => ∃ q, v = .pfloat q
  | .decimal => ∃ q, v = .pdec q ∧ (q * 100).den = 1
  | .int => ∃ n, v = .pint n
  | .date => ∃ t, v = .pdate t
  | .bool => ∃ b, v = .pbool b
  | .object => ∃ c p, v = .pobj c (Option.some p)
  | .enum => ∃ ev, ev ∈ db.enum_values ∧ v = .enumEV (Option.some ev.id) ev.value
  | .enum_multi => ∃ evs : List EnumValueRow,
      v = .plist (evs.map (fun e => PyVal.enumEV (Option.some e.id) e.value)) ∧
      (∀ e ∈ evs, e ∈ db.enum_values) ∧ (evs.map (fun e => e.id)).Nodup
  | .json => ∃ kvs, v = .pdict kvs

/-- A choice token as provided by a caller: a raw string (`none`) or a
saved `EnumValue` instance (`some id`), with its display string. -/
def tokenVal : Option Nat × String → PyVal
  | (Option.some i, s) => .enumEV (Option.some i) s
  | (Option.none, s) => .pstr s

theorem chDigit_digitCh (d : Nat) (h : d < 10) : chDigit (digitCh d) = d := by
  interval_cases d <;> decide

theorem isDigitCh_digitCh (d : Nat) (h : d < 10) : isDigitCh (digitCh d) = true := by
  interval_cases d <;> decide

theorem parseLE_natLE (n : Nat) : parseLE (natLE n) = n := by
  induction n using Nat.strong_induction_on with
  | _ n ih =>
    rw [natLE]
    by_cases h : n < 10
    · simp only [h, dite_true, parseLE, chDigit_digitCh n h]
      omega
    · simp only [h, dite_false, parseLE]
      rw [ih (n / 10) (Nat.div_lt_self (by omega) (by omega))]
      rw [chDigit_digitCh (n % 10) (Nat.mod_lt n (by omega))]
      omega

theorem natLE_digits (n : Nat) : ∀ c ∈ natLE n, isDigitCh c = true := by
  induction n using Nat.strong_induction_on with
  | _ n ih =>
    rw [natLE]
    by_cases h : n < 10
    · simp only [h, dite_true, List.mem_singleton]
      intro c hc; subst hc; exact isDigitCh_digitCh n h
    · simp only [h, dite_false, List.mem_cons]
      rintro c (rfl | hc)
      · exact isDigitCh_digitCh (n % 10) (Nat.mod_lt n (by omega))
      · exact ih (n / 10) (Nat.div_lt_self (by omega) (by omega)) c hc

theorem natLE_ne_nil (n : Nat) : natLE n ≠ [] := by
  rw [natLE]; by_cases h : n < 10 <;> simp [h]

theorem takeWhile_append_of_all {p : Char → Bool} (ds : List Char) (r : Char)
    (rest : List Char) (hds : ∀ c ∈ ds, p c = true) (hr : p r = false) :
    (ds ++ r :: rest).takeWhile p = ds ∧ (ds ++ r :: rest).dropWhile p = r :: rest := by
  induction ds with
  | nil => simp [List.takeWhile, List.dropWhile, hr]
  | cons d ds ih =>
    have hd : p d = true := hds d (List.mem_cons_self d ds)
    have hrec := ih (fun c hc => hds c (List.mem_cons_of_mem d hc))
    simp [List.takeWhile, List.dropWhile, hd, hrec.1, hrec.2]

theorem parseNatSemi_natLE (n : Nat) (rest : List Char) :
    parseNatSemi (natLE n ++ ';' :: rest) = some (n, rest) := by
  have h := takeWhile_append_of_all (p := isDigitCh) (natLE n) ';' rest
    (natLE_digits n) (by decide)
  simp only [parseNatSemi, h.1, h.2, parseLE_natLE n]
  simp [natLE_ne_nil n]

theorem string_mk_data (s : String) : String.mk s.data = s := by cases s; rfl

theorem parseStrBody_enc (s : String) (rest : List Char) :
    parseStrBody (natLE s.data.length ++ ';' :: (s.data ++ rest)) = some (s, rest) := by
  simp only [parseStrBody, parseNatSemi_natLE]
  have hlen : s.data.length ≤ (s.data ++ rest).length := by
    simp [List.length_append]
  simp only [hlen, ite_true, List.take_left, List.drop_left, string_mk_data]

theorem jsz_pos (v : JVal) : 1 ≤ jsz v := by
  cases v <;> simp [jsz]

theorem jszL_pos (vs : List JVal) : 1 ≤ jszL vs := by
  cases vs with
  | nil => simp [jszL]
  | cons v vs => simp [jszL]; have := jsz_pos v; omega

theorem jszE_pos (kvs : List (String × JVal)) : 1 ≤ jszE kvs := by
  cases kvs with
  | nil => simp [jszE]
  | cons kv kvs =>
    obtain ⟨k, v⟩ := kv
    simp [jszE]; have := jsz_pos v; omega

theorem jenc_head (v : JVal) : ∃ c cs, jenc v = c :: cs ∧ c ≠ 'e' := by
  cases v with
  | null => exact ⟨'n', [], by simp [jenc], by decide⟩
  | jbool b =>
    cases b with
    | false => exact ⟨'f', [], by simp [jenc], by decide⟩
    | true => exact ⟨'t', [], by simp [jenc], by decide⟩
  | jint n =>
    refine ⟨if n < 0 then 'm' else 'i', natLE n.natAbs ++ [';'], by simp [jenc], ?_⟩
    by_cases hn : n < 0 <;> simp [hn]
  | jstr s =>
    exact ⟨'s', natLE s.data.length ++ ';' :: s.data, by simp [jenc], by decide⟩
  | jarr vs => exact ⟨'a', jencList vs ++ ['e'], by simp [jenc], by decide⟩
  | jobj kvs => exact ⟨'o', jencEntries kvs ++ ['e'], by simp [jenc], by decide⟩

theorem jdec_complete : ∀ fuel : Nat,
    (∀ v rest, jsz v ≤ fuel → jdecF fuel (jenc v ++ rest) = some (v, rest)) ∧
    (∀ vs rest, jszL vs ≤ fuel → jdecItems fuel (jencList vs ++ 'e' :: rest) = some (vs, rest)) ∧
    (∀ kvs rest, jszE kvs ≤ fuel →
      jdecEntries fuel (jencEntries kvs ++ 'e' :: rest) = some (kvs, rest)) := by
  intro fuel
  induction fuel with
  | zero =>
    refine ⟨fun v _ hv => ?_, fun vs _ hv => ?_, fun kvs _ hv => ?_⟩
    · have := jsz_pos v; omega
    · have := jszL_pos vs; omega
    · have := jszE_pos kvs; omega
  | succ f ih =>
    obtain ⟨ihF, ihL, ihE⟩ := ih
    refine ⟨?_, ?_, ?_⟩
    · intro v rest hv
      cases v with
      | null => simp [jenc, jdecF]
      | jbool b => cases b <;> simp [jenc, jdecF]
      | jint n =>
        rcases Int.lt_or_le n 0 with hn | hn
        · have harr : jenc (JVal.jint n) ++ rest
              = 'm' :: (natLE n.natAbs ++ ';' :: rest) := by
            simp [jenc, hn]
          rw [harr]
          have hi : -((n.natAbs : Int)) = n := by omega
          simp only [jdecF, if_true, parseNatSemi_natLE, hi]
          simp
        · have hn2 : ¬ n < 0 := by omega
          have harr : jenc (JVal.jint n) ++ rest
              = 'i' :: (natLE n.natAbs ++ ';' :: rest) := by
            simp [jenc, hn2]
          rw [harr]
          have hi : ((n.natAbs : Int)) = n := by omega
          simp only [jdecF, if_true, parseNatSemi_natLE, hi]
          simp
      | jstr s =>
        have harr : jenc (JVal.jstr s) ++ rest
            = 's' :: (natLE s.data.length ++ ';' :: (s.data ++ rest)) := by
          simp [jenc]
        rw [harr]
        simp only [jdecF, if_true, parseStrBody_enc]
        simp
      | jarr vs =>
        have hsz : jszL vs ≤ f := by simp [jsz] at hv; omega
        have harr : jenc (JVal.jarr vs) ++ rest = 'a' :: (jencList vs ++ 'e' :: rest) := by
          simp [jenc]
        rw [harr]
        simp [jdecF, ihL vs rest hsz]
      | jobj kvs =>
        have hsz : jszE kvs ≤ f := by simp [jsz] at hv; omega
        have harr : jenc (JVal.jobj kvs) ++ rest
            = 'o' :: (jencEntries kvs ++ 'e' :: rest) := by
          simp [jenc]
        rw [harr]
        simp [jdecF, ihE kvs rest hsz]
    · intro vs rest hv
      cases vs with
      | nil => simp [jencList, jdecItems]
      | cons v vs =>
        have h1 : jsz v ≤ f := by
          simp [jszL] at hv; have := jszL_pos vs; omega
        have h2 : jszL vs ≤ f := by
          simp [jszL] at hv; have := jsz_pos v; omega
        obtain ⟨c, cs, hc, hne⟩ := jenc_head v
        have harr : jencList (v :: vs) ++ 'e' :: rest
            = c :: (cs ++ (jencList vs ++ 'e' :: rest)) := by
          simp [jencList, hc]
        rw [harr]
        have hF := ihF v (jencList vs ++ 'e' :: rest) h1
        rw [hc] at hF
        simp only [List.cons_append] at hF
        simp only [jdecItems, hne, ite_false, hF, ihL vs rest h2]
    · intro kvs rest hv
      cases kvs with
      | nil => simp [jencEntries, jdecEntries]
      | cons kv kvs =>
        obtain ⟨k, v⟩ := kv
        have h1 : jsz v ≤ f := by
          simp [jszE] at hv; have := jszE_pos kvs; omega
        have h2 : jszE kvs ≤ f := by
          simp [jszE] at hv; have := jsz_pos v; omega
        have harr : jencEntries ((k, v) :: kvs) ++ 'e' :: rest
            = 's' :: (natLE k.data.length ++ ';' ::
                (k.data ++ (jenc v ++ (jencEntries kvs ++ 'e' :: rest)))) := by
          simp [jencEntries]
        rw [harr]
        simp only [jdecEntries, parseStrBody_enc,
          ihF v (jencEntries kvs ++ 'e' :: rest) h1, ihE kvs rest h2]
        simp

/-- Length bound relating the fuel needed by the parser to the printed
size, so `jsonLoads` can run the parser with fuel from the input length. -/
theorem jsz_le_len : ∀ v : JVal, jsz v ≤ (jenc v).length := by
  have main : ∀ fuel : Nat,
      (∀ v : JVal, jsz v ≤ fuel → jsz v ≤ (jenc v).length) ∧
      (∀ vs : List JVal, jszL vs ≤ fuel → jszL vs ≤ (jencList vs).length + 1) ∧
      (∀ kvs : List (String × JVal), jszE kvs ≤ fuel →
        jszE kvs ≤ (jencEntries kvs).length + 1) := by
    intro fuel
    induction fuel with
    | zero =>
      refine ⟨fun v hv => ?_, fun vs hv => ?_, fun kvs hv => ?_⟩
      · have := jsz_pos v; omega
      · have := jszL_pos vs; omega
      · have := jszE_pos kvs; omega
    | succ f ih =>
      obtain ⟨ihF, ihL, ihE⟩ := ih
      refine ⟨?_, ?_, ?_⟩
      · intro v hv
        cases v with
        | null => simp [jenc, jsz]
        | jbool b => cases b <;> simp [jenc, jsz]
        | jint n =>
          have hpos : 0 < (natLE n.natAbs).length :=
            List.length_pos.mpr (natLE_ne_nil n.natAbs)
          simp [jenc, jsz]
        | jstr s => simp [jenc, jsz]
        | jarr vs =>
          have hsz : jszL vs ≤ f := by simp [jsz] at hv; omega
          have := ihL vs hsz
          simp [jenc, jsz]; omega
        | jobj kvs =>
          have hsz : jszE kvs ≤ f := by simp [jsz] at hv; omega
          have := ihE kvs hsz
          simp [jenc, jsz]; omega
      · intro vs hv
        cases vs with
        | nil => simp [jencList, jszL]
        | cons v vs =>
          have h1 : jsz v ≤ f := by
            simp [jszL] at hv; have := jszL_pos vs; omega
          have h2 : jszL vs ≤ f := by
            simp [jszL] at hv; have := jsz_pos v; omega
          have := ihF v h1
          have := ihL vs h2
          simp [jencList, jszL]; omega
      · intro kvs hv
        cases kvs with
        | nil => simp [jencEntries, jszE]
        | cons kv kvs =>
          obtain ⟨k, v⟩ := kv
          have h1 : jsz v ≤ f := by
            simp [jszE] at hv; have := jszE_pos kvs; omega
          have h2 : jszE kvs ≤ f := by
            simp [jszE] at hv; have := jsz_pos v; omega
          have := ihF v h1
          have := ihE kvs h2
          simp [jencEntries, jszE]; omega
  intro v
  exact (main (jsz v)).1 v le_rfl

theorem jsonLoads_jsonDumps (v : JVal) : jsonLoads (jsonDumps v) = some v := by
  have h := (jdec_complete ((jenc v).length + 1)).1 v []
    (le_trans (jsz_le_len v) (Nat.le_succ _))
  simp only [jsonDumps, jsonLoads, List.append_nil] at *
  rw [h]

theorem jsonDumps_ne_empty (v : JVal) : jsonDumps v ≠ "" := by
  obtain ⟨c, cs, hc, _⟩ := jenc_head v
  simp only [jsonDumps, hc]
  intro h
  have : (String.mk (c :: cs)).data = ("" : String).data := by rw [h]
  simp at this

/-!
### Structural lemmas about the row operations
-/

theorem setColumn_key {dt : Datatype} {v : PyVal} {upd : ValueRow → ValueRow}
    (h : setColumn dt v = .ok upd) (aid ct : Nat) (pk : Int) (r : ValueRow) :
    valueKeyMatch aid ct pk (upd r) = valueKeyMatch aid ct pk r := by
  cases dt <;> cases v <;> simp [setColumn] at h <;>
    first
      | (subst h; simp [valueKeyMatch])
      | skip
  case object.pobj c p =>
    cases p with
    | none => simp [setColumn] at h
    | some q => simp [setColumn] at h; subst h; simp [valueKeyMatch]
  case enum.enumEV i s =>
    cases i with
    | none => simp [setColumn] at h
    | some j => simp [setColumn] at h; subst h; simp [valueKeyMatch]

theorem blankRow_key (rid aid ct : Nat) (pk : Int) :
    valueKeyMatch aid ct pk (blankRow rid aid ct pk) = true := by
  simp [valueKeyMatch, blankRow]

theorem filter_ifmap {p : ValueRow → Bool} {f : ValueRow → ValueRow}
    (hf : ∀ x, p (f x) = p x) :
    ∀ l : List ValueRow,
      (l.map (fun r => if p r then f r else r)).filter p = (l.filter p).map f := by
  intro l
  induction l with
  | nil => simp
  | cons r l ih =>
    cases hp : p r with
    | true => simp [List.filter_cons, hp, hf r, ih]
    | false => simp [List.filter_cons, hp, ih]

theorem uoc_filter {db : DB} {aid ct : Nat} {pk : Int} {upd : ValueRow → ValueRow}
    {db2 : DB}
    (hkey : ∀ r, valueKeyMatch aid ct pk (upd r) = valueKeyMatch aid ct pk r)
    (hok : valueUpdateOrCreate db aid ct pk upd = .ok db2) :
    ∃ r0, db2.values.filter (valueKeyMatch aid ct pk) = [upd r0] := by
  unfold valueUpdateOrCreate at hok
  cases hf : db.values.filter (valueKeyMatch aid ct pk) with
  | nil =>
    rw [hf] at hok
    simp only [Except.ok.injEq] at hok
    subst hok
    refine ⟨blankRow db.next_value_id aid ct pk, ?_⟩
    rw [List.filter_append, hf]
    simp [hkey, blankRow_key]
  | cons r rest =>
    cases rest with
    | nil =>
      rw [hf] at hok
      simp only [Except.ok.injEq] at hok
      subst hok
      refine ⟨r, ?_⟩
      simp only [filter_ifmap hkey, hf, List.map_cons, List.map_nil]
    | cons r2 rest2 => rw [hf] at hok; simp at hok

theorem uoc_len {db : DB} {aid ct : Nat} {pk : Int} {upd : ValueRow → ValueRow}
    {db2 : DB}
    (hok : valueUpdateOrCreate db aid ct pk upd = .ok db2) :
    (db.values.filter (valueKeyMatch aid ct pk) = [] ∧
      db2.values.length = db.values.length + 1) ∨
    (db.values.filter (valueKeyMatch aid ct pk) ≠ [] ∧
      db2.values.length = db.values.length) := by
  unfold valueUpdateOrCreate at hok
  cases hf : db.values.filter (valueKeyMatch aid ct pk) with
  | nil =>
    rw [hf] at hok
    simp only [Except.ok.injEq] at hok
    subst hok
    left
    simp
  | cons r rest =>
    cases rest with
    | nil =>
      rw [hf] at hok
      simp only [Except.ok.injEq] at hok
      subst hok
      right
      simp
    | cons r2 rest2 => rw [hf] at hok; simp at hok

theorem valueKeyMatch_iff {aid ct : Nat} {pk : Int} {r : ValueRow} :
    valueKeyMatch aid ct pk r = true ↔
      (r.attribute_id = aid ∧ r.entity_ct = ct ∧ r.entity_id = pk) := by
  simp [valueKeyMatch, and_assoc]

theorem uoc_wf {db : DB} {aid ct : Nat} {pk : Int} {upd : ValueRow → ValueRow}
    {db2 : DB}
    (hkey : ∀ r, valueKeyMatch aid ct pk (upd r) = valueKeyMatch aid ct pk r)
    (hok : valueUpdateOrCreate db aid ct pk upd = .ok db2)
    (hwf : wfDB db) : wfDB db2 := by
  obtain ⟨hpw, hnd⟩ := hwf
  unfold valueUpdateOrCreate at hok
  cases hf : db.values.filter (valueKeyMatch aid ct pk) with
  | nil =>
    rw [hf] at hok
    simp only [Except.ok.injEq] at hok
    subst hok
    refine ⟨?_, hnd⟩
    rw [List.pairwise_append]
    refine ⟨hpw, List.pairwise_singleton _ _, ?_⟩
    intro r hr s hs
    simp only [List.mem_singleton] at hs
    subst hs
    have hrf : ¬(valueKeyMatch aid ct pk r = true) := by
      intro hcon
      have hmem : r ∈ db.values.filter (valueKeyMatch aid ct pk) :=
        List.mem_filter.mpr ⟨hr, hcon⟩
      rw [hf] at hmem
      simp at hmem
    have hknew : (upd (blankRow db.next_value_id aid ct pk)).attribute_id = aid ∧
        (upd (blankRow db.next_value_id aid ct pk)).entity_ct = ct ∧
        (upd (blankRow db.next_value_id aid ct pk)).entity_id = pk :=
      valueKeyMatch_iff.mp (by rw [hkey]; exact blankRow_key _ _ _ _)
    rintro ⟨h1, h2, h3⟩
    exact hrf (valueKeyMatch_iff.mpr
      ⟨h1.trans hknew.1, h2.trans hknew.2.1, h3.trans hknew.2.2⟩)
  | cons r0 rest =>
    cases rest with
    | nil =>
      rw [hf] at hok
      simp only [Except.ok.injEq] at hok
      subst hok
      refine ⟨?_, hnd⟩
      have hfields : ∀ x : ValueRow,
          ((if valueKeyMatch aid ct pk x then upd x else x).attribute_id = x.attribute_id ∧
           (if valueKeyMatch aid ct pk x then upd x else x).entity_ct = x.entity_ct ∧
           (if valueKeyMatch aid ct pk x then upd x else x).entity_id = x.entity_id) := by
        intro x
        by_cases hx : valueKeyMatch aid ct pk x = true
        · have hux : valueKeyMatch aid ct pk (upd x) = true := by rw [hkey]; exact hx
          have h1 := valueKeyMatch_iff.mp hx
          have h2 := valueKeyMatch_iff.mp hux
          simp only [hx, ite_true]
          exact ⟨h2.1.trans h1.1.symm, h2.2.1.trans h1.2.1.symm, h2.2.2.trans h1.2.2.symm⟩
        · simp [hx]
      refine List.Pairwise.map _ ?_ hpw
      intro a b hab
      have ha := hfields a
      have hb := hfields b
      rintro ⟨h1, h2, h3⟩
      exact hab ⟨(ha.1.symm.trans h1).trans hb.1, (ha.2.1.symm.trans h2).trans hb.2.1,
        (ha.2.2.symm.trans h3).trans hb.2.2⟩
    | cons r2 rest2 => rw [hf] at hok; simp at hok

theorem m2mAdd_cons (cur : List Nat) (i : Nat) (ids : List Nat) :
    m2mAdd cur (i :: ids) = m2mAdd (if cur.contains i then cur else cur ++ [i]) ids := rfl

theorem m2mAdd_cons_true {cur : List Nat} {i : Nat} (ids : List Nat)
    (h : cur.contains i = true) : m2mAdd cur (i :: ids) = m2mAdd cur ids := by
  rw [m2mAdd_cons, h]
  simp

theorem m2mAdd_cons_false {cur : List Nat} {i : Nat} (ids : List Nat)
    (h : cur.contains i = false) : m2mAdd cur (i :: ids) = m2mAdd (cur ++ [i]) ids := by
  rw [m2mAdd_cons, h]
  simp

theorem m2mAdd_mem (ids : List Nat) :
    ∀ cur j, j ∈ m2mAdd cur ids ↔ j ∈ cur ∨ j ∈ ids := by
  induction ids with
  | nil => intro cur j; simp [m2mAdd]
  | cons i ids ih =>
    intro cur j
    by_cases hc : cur.contains i = true
    · have hi : i ∈ cur := by simpa using hc
      rw [m2mAdd_cons_true ids hc, ih]
      simp only [List.mem_cons]
      constructor
      · rintro (h | h)
        · exact Or.inl h
        · exact Or.inr (Or.inr h)
      · rintro (h | rfl | h)
        · exact Or.inl h
        · exact Or.inl hi
        · exact Or.inr h
    · have hcf : cur.contains i = false := by simpa using hc
      rw [m2mAdd_cons_false ids hcf, ih]
      simp only [List.mem_append, List.mem_singleton, List.mem_cons]
      tauto

theorem m2mAdd_nodup (ids : List Nat) :
    ∀ cur, cur.Nodup → (m2mAdd cur ids).Nodup := by
  induction ids with
  | nil => intro cur h; simpa [m2mAdd] using h
  | cons i ids ih =>
    intro cur h
    by_cases hc : cur.contains i = true
    · rw [m2mAdd_cons_true ids hc]
      exact ih cur h
    · have hcf : cur.contains i = false := by simpa using hc
      rw [m2mAdd_cons_false ids hcf]
      refine ih (cur ++ [i]) ?_
      have hi : i ∉ cur := by simpa using hc
      simp [List.nodup_append, h, hi]

theorem m2mAdd_of_disjoint (ids : List Nat) :
    ∀ cur, ids.Nodup → (∀ j ∈ ids, j ∉ cur) → m2mAdd cur ids = cur ++ ids := by
  induction ids with
  | nil => intro cur _ _; simp [m2mAdd]
  | cons i ids ih =>
    intro cur hnd hdisj
    have hi : i ∉ cur := hdisj i (List.mem_cons_self i ids)
    have hc : cur.contains i = false := by simpa using hi
    rw [m2mAdd_cons_false ids hc]
    rw [ih (cur ++ [i]) (List.Nodup.of_cons hnd) ?_]
    · simp
    · intro j hj
      simp only [List.mem_append, List.mem_singleton]
      rintro (h | rfl)
      · exact hdisj j (List.mem_cons_of_mem i hj) h
      · exact (List.nodup_cons.mp hnd).1 hj

theorem m2mAdd_nil_of_nodup (ids : List Nat) (h : ids.Nodup) : m2mAdd [] ids = ids := by
  rw [m2mAdd_of_disjoint ids [] h (by simp)]
  simp

theorem find_ev (l : List EnumValueRow) (ev : EnumValueRow)
    (hmem : ev ∈ l) (hnd : (l.map (fun x => x.id)).Nodup) :
    l.find? (fun x => x.id = ev.id) = Option.some ev := by
  induction l with
  | nil => simp at hmem
  | cons x l ih =>
    simp only [List.map_cons, List.nodup_cons] at hnd
    by_cases hx : x.id = ev.id
    · have hev : ev = x := by
        rcases List.mem_cons.mp hmem with h | h
        · exact h
        · exfalso
          exact hnd.1 (hx ▸ List.mem_map.mpr ⟨ev, h, rfl⟩)
      rw [List.find?_cons_of_pos _ (by simp [hx])]
      rw [hev]
    · have hne : ev ≠ x := fun h => hx (by rw [h])
      have hmem2 : ev ∈ l := by
        rcases List.mem_cons.mp hmem with h | h
        · exact absurd h hne
        · exact h
      rw [List.find?_cons_of_neg _ (by simp [hx])]
      exact ih hmem2 hnd.2

theorem mapM_find_evs (l : List EnumValueRow)
    (hnd : (l.map (fun x => x.id)).Nodup) :
    ∀ evs : List EnumValueRow, (∀ ev ∈ evs, ev ∈ l) →
      (evs.map (fun x => x.id)).mapM (fun i => l.find? (fun x => x.id = i))
        = Option.some evs := by
  intro evs
  induction evs with
  | nil => intro _; rfl
  | cons ev evs ih =>
    intro h
    have h1 : ev ∈ l := h ev (List.mem_cons_self ev evs)
    have h2 : ∀ x ∈ evs, x ∈ l := fun x hx => h x (List.mem_cons_of_mem ev hx)
    simp only [List.map_cons, List.mapM_cons, find_ev l ev h1 hnd, ih h2,
      Option.bind_eq_bind, Option.some_bind]
    rfl

/-!
### Unfolding lemmas for `save_value`
-/

theorem save_value_empty {db : DB} {a : Attribute} {ct : Nat} {pk : Int} {v : PyVal}
    (h : isEmptyVal v = true) :
    Attribute.save_value db a ct pk v =
      .ok { db with values := db.values.filter (fun r => !(valueKeyMatch a.id ct pk r)) } := by
  unfold Attribute.save_value
  rw [if_pos h]

theorem save_value_nonmulti {db : DB} {a : Attribute} {ct : Nat} {pk : Int} {v : PyVal}
    {upd : ValueRow → ValueRow}
    (hne : isEmptyVal v = false) (hdt : a.datatype ≠ .enum_multi)
    (hcol : setColumn a.datatype v = .ok upd) :
    Attribute.save_value db a ct pk v = valueUpdateOrCreate db a.id ct pk upd := by
  unfold Attribute.save_value
  rw [if_neg (by simp [hne]), if_neg hdt, hcol]

theorem save_value_multi {db : DB} {a : Attribute} {ct : Nat} {pk : Int}
    {vs : List PyVal} {ids : List Nat}
    (hne : isEmptyVal (PyVal.plist vs) = false) (hdt : a.datatype = .enum_multi)
    (hids : evIds vs = .ok ids) :
    Attribute.save_value db a ct pk (.plist vs) =
      valueUpdateOrCreate db a.id ct pk
        (fun r => { r with value_enum_multi := m2mAdd [] ids }) := by
  unfold Attribute.save_value
  rw [if_neg (by simp [hne]), if_pos hdt]
  simp [hids]

theorem multiUpd_key (ids : List Nat) (aid ct : Nat) (pk : Int) (r : ValueRow) :
    valueKeyMatch aid ct pk { r with value_enum_multi := m2mAdd [] ids }
      = valueKeyMatch aid ct pk r := by
  simp [valueKeyMatch]

theorem save_nonempty_uoc {db : DB} {a : Attribute} {ct : Nat} {pk : Int} {v : PyVal}
    {db2 : DB}
    (hne : isEmptyVal v = false)
    (hok : Attribute.save_value db a ct pk v = .ok db2) :
    ∃ upd : ValueRow → ValueRow,
      (∀ r, valueKeyMatch a.id ct pk (upd r) = valueKeyMatch a.id ct pk r) ∧
      valueUpdateOrCreate db a.id ct pk upd = .ok db2 := by
  by_cases hdt : a.datatype = .enum_multi
  · unfold Attribute.save_value at hok
    rw [if_neg (by simp [hne]), if_pos hdt] at hok
    cases v with
    | plist vs =>
      have hok2 : (match evIds vs with
          | Except.error e => (Except.error e : Except PyExc DB)
          | Except.ok ids => valueUpdateOrCreate db a.id ct pk
              (fun r => { r with value_enum_multi := m2mAdd [] ids })) = Except.ok db2 := hok
      cases hids : evIds vs with
      | error e => rw [hids] at hok2; simp at hok2
      | ok ids =>
        rw [hids] at hok2
        exact ⟨_, multiUpd_key ids a.id ct pk, hok2⟩
    | pnone => simp at hok
    | pbool b => simp at hok
    | pint n => simp at hok
    | pfloat q => simp at hok
    | pdec q => simp at hok
    | pstr s => simp at hok
    | pdate t => simp at hok
    | enumEV i s => simp at hok
    | pdict kvs => simp at hok
    | pobj c p => simp at hok
  · unfold Attribute.save_value at hok
    rw [if_neg (by simp [hne]), if_neg hdt] at hok
    cases hcol : setColumn a.datatype v with
    | error e => rw [hcol] at hok; simp at hok
    | ok upd =>
      rw [hcol] at hok
      exact ⟨upd, setColumn_key hcol a.id ct pk, hok⟩

theorem uoc_tables {db : DB} {aid ct : Nat} {pk : Int} {upd : ValueRow → ValueRow}
    {db2 : DB}
    (hok : valueUpdateOrCreate db aid ct pk upd = .ok db2) :
    db2.enum_values = db.enum_values ∧ db2.enum_groups = db.enum_groups ∧
    db2.attributes = db.attributes := by
  unfold valueUpdateOrCreate at hok
  cases hf : db.values.filter (valueKeyMatch aid ct pk) with
  | nil =>
    rw [hf] at hok
    simp only [Except.ok.injEq] at hok
    subst hok
    exact ⟨rfl, rfl, rfl⟩
  | cons r rest =>
    cases rest with
    | nil =>
      rw [hf] at hok
      simp only [Except.ok.injEq] at hok
      subst hok
      exact ⟨rfl, rfl, rfl⟩
    | cons r2 rest2 => rw [hf] at hok; simp at hok

theorem evIds_map (evs : List EnumValueRow) :
    evIds (evs.map (fun e => PyVal.enumEV (Option.some e.id) e.value))
      = .ok (evs.map (fun e => e.id)) := by
  induction evs with
  | nil => rfl
  | cons e evs ih => simp [evIds, ih]

theorem validateLoop_append (db : DB) (pending : List (String × PyVal)) :
    ∀ (pre rest : List Attribute) (vd : List (String × PyVal)),
      validateLoop db pending (pre ++ rest) vd =
        match validateLoop db pending pre vd with
        | .ok vd2 => validateLoop db pending rest vd2
        | .error e => .error e := by
  intro pre
  induction pre with
  | nil => intro rest vd; rfl
  | cons a pre ih =>
    intro rest vd
    simp only [List.cons_append, validateLoop]
    cases attrStep db pending vd a with
    | ok vd2 => exact ih rest vd2
    | error e => rfl

theorem dictGet_eq_none {d : List (String × PyVal)} {k : String}
    (h : ∀ kv ∈ d, kv.1 ≠ k) : dictGet d k = Option.none := by
  unfold dictGet
  rw [List.find?_eq_none.mpr]
  · rfl
  · intro kv hkv
    simpa using h kv hkv

theorem countP_mem_eq_length_iff (M ss : List String) (hM : M.Nodup) :
    M.countP (fun m => ss.any (fun s => m = s)) = ss.length ↔
      ((∀ s ∈ ss, s ∈ M) ∧ ss.Nodup) := by
  have hpred : (fun m => ss.any (fun s => m = s)) = fun m => decide (m ∈ ss) := by
    funext m
    by_cases h : m ∈ ss
    · simp only [h, decide_True]
      rw [List.any_eq_true]
      exact ⟨m, h, by simp⟩
    · simp only [h, decide_False]
      rw [List.any_eq_false]
      intro x hx
      simp only [decide_eq_true_eq]
      intro heq
      exact h (heq ▸ hx)
  rw [hpred, List.countP_eq_length_filter]
  have hfnd : (M.filter (fun m => decide (m ∈ ss))).Nodup := List.Nodup.filter _ hM
  have hcard : (M.filter (fun m => decide (m ∈ ss))).length
      = (M.toFinset ∩ ss.toFinset).card := by
    rw [← List.toFinset_card_of_nodup hfnd]
    congr 1
    ext x
    simp [List.mem_toFinset, List.mem_filter, Finset.mem_inter]
  rw [hcard]
  constructor
  · intro hlen
    have h1 : (M.toFinset ∩ ss.toFinset).card ≤ ss.toFinset.card :=
      Finset.card_le_card (Finset.inter_subset_right)
    have h2 : ss.toFinset.card ≤ ss.length := ss.toFinset_card_le
    have hsseq : ss.toFinset.card = ss.length := by omega
    have hnd : ss.Nodup := by
      rw [List.card_toFinset] at hsseq
      have hdl : ss.dedup = ss := (List.dedup_sublist ss).eq_of_length hsseq
      exact List.dedup_eq_self.mp hdl
    refine ⟨?_, hnd⟩
    have hsub : M.toFinset ∩ ss.toFinset ⊆ ss.toFinset := Finset.inter_subset_right
    have heq : M.toFinset ∩ ss.toFinset = ss.toFinset :=
      Finset.eq_of_subset_of_card_le hsub (by omega)
    intro s hs
    have : s ∈ M.toFinset ∩ ss.toFinset := by
      rw [heq]
      exact List.mem_toFinset.mpr hs
    exact List.mem_toFinset.mp (Finset.mem_of_mem_inter_left this)
  · rintro ⟨hsub, hnd⟩
    have heq : M.toFinset ∩ ss.toFinset = ss.toFinset := by
      apply Finset.inter_eq_right.mpr
      intro x hx
      exact List.mem_toFinset.mpr (hsub x (List.mem_toFinset.mp hx))
    rw [heq, List.toFinset_card_of_nodup hnd]

/-!
### The claims
-/

/-- Claim C8: the claim states every non-coercible input makes
`validate_float` / `validate_decimal` / `validate_int` raise a
`ValidationError` and no other exception kind escapes. The code catches
only `ValueError`, so this holds for non-numeric *strings* given to
`validate_float`/`validate_int` — but `Decimal` applied to such a string raises
`decimal.InvalidOperation` on a non-numeric string, and `float(None)` /
`int(None)` / `int([])` raise `TypeError`, all of which escape the
validators uncaught, contradicting both the claim and the validators'
own docstrings. -/
theorem claim8_validator_exception_kinds :
    validate_decimal (PyVal.pstr "abc") = .error .InvalidOperation ∧
    validate_float PyVal.pnone = .error .TypeError ∧
    validate_int PyVal.pnone = .error .TypeError ∧
    validate_int (PyVal.plist []) = .error .TypeError ∧
    validate_float (PyVal.pstr "abc") = .error (.ValidationError "Must be a float") ∧
    validate_int (PyVal.pstr "abc") = .error (.ValidationError "Must be an integer") :=
  ⟨rfl, rfl, rfl, rfl, rfl, rfl⟩

/-- Claim C10: reading `Value.value_json` on a row whose text column is
`None` or the empty string returns the empty mapping; on a non-empty
decodable text it returns the decoded document; assigning `value_json`
writes the JSON serialization of the given mapping into the text column
(and reading it back yields the mapping). -/
theorem claim10_value_json_view :
    value_json_get Option.none = .ok (JVal.jobj []) ∧
    value_json_get (Option.some "") = .ok (JVal.jobj []) ∧
    (∀ (s : String) (v : JVal), s ≠ "" → jsonLoads s = Option.some v →
      value_json_get (Option.some s) = .ok v) ∧
    (∀ v : JVal, value_json_set v = Option.some (jsonDumps v) ∧
      value_json_get (value_json_set v) = .ok v) := by
  refine ⟨rfl, rfl, ?_, ?_⟩
  · intro s v hs hl
    simp [value_json_get, hs, hl]
  · intro v
    refine ⟨rfl, ?_⟩
    simp [value_json_set, value_json_get, jsonDumps_ne_empty v, jsonLoads_jsonDumps v]

/-- Witness for C10 at a concrete text column. -/
theorem claim10_witness : value_json_get (Option.some "n") = .ok JVal.null :=
  claim10_value_json_view.2.2.1 "n" JVal.null (by decide) rfl

/-- Claim C2 counterexample: the claim says an *empty collection* passed
to `save_value` deletes the row / is a no-op with no typed column
written. The code's test is `value in (None, '', [])`, and an empty
Python dict `{}` (an empty collection, and a valid value for a json
attribute) is not equal to `[]`: `save_value` takes the non-empty branch
and creates a row whose text column holds the serialized `{}`. -/
theorem claim2_counterexample :
    isEmptyVal (PyVal.pdict []) = false ∧
    validate_json (PyVal.pdict []) = .ok () ∧
    (Attribute.save_value dbEmpty attrMeta 1 7 (PyVal.pdict [])).map
      (fun d => d.values.length) = .ok 1 :=
  ⟨rfl, rfl, rfl⟩

/-- Claim C2 as amended: for `v` equal to `None`, the empty string or
the empty *list* (the three members of the literal tuple in the code),
`save_value` deletes any existing `Value` rows for the
`(entity, attribute)` pair, writes no typed column, and is a no-op when
no such row exists. -/
theorem claim2_empty_policy :
    ∀ (db : DB) (a : Attribute) (ct : Nat) (pk : Int) (v : PyVal),
      (v = PyVal.pnone ∨ v = PyVal.pstr "" ∨ v = PyVal.plist []) →
      Attribute.save_value db a ct pk v =
        .ok { db with values := db.values.filter (fun r => !(valueKeyMatch a.id ct pk r)) } ∧
      ((∀ r ∈ db.values, valueKeyMatch a.id ct pk r = false) →
        Attribute.save_value db a ct pk v = .ok db) := by
  intro db a ct pk v hv
  have hemp : isEmptyVal v = true := by
    rcases hv with rfl | rfl | rfl <;> rfl
  refine ⟨save_value_empty hemp, ?_⟩
  intro hnone
  rw [save_value_empty hemp]
  have : db.values.filter (fun r => !(valueKeyMatch a.id ct pk r)) = db.values := by
    rw [List.filter_eq_self]
    intro r hr
    simp [hnone r hr]
  rw [this]

/-- Witness for C2 (amended) at a concrete empty input. -/
theorem claim2_witness : Attribute.save_value dbEmpty attrColor 1 7 PyVal.pnone = .ok dbEmpty :=
  (claim2_empty_policy dbEmpty attrColor 1 7 PyVal.pnone (Or.inl rfl)).2
    (by intro r hr; simp [dbEmpty] at hr)

/-- Claim C9: the claim says `EntityManager.update_or_create` locks and
fetches a matching record, updates it in place applying the `defaults`,
and returns `(record, False)` when found. The found path actually calls
`obj.get_queryset()` on a model instance — an attribute model instances
do not have — so it raises `AttributeError`; even as written the update
call passes the lookup `kwargs`, and `defaults` is never used. The
not-found path does create through the EAV-splitting `create` and
returns `(record, True)`. -/
theorem claim9_update_or_create_found_path :
    EntityManager.update_or_create (Option.some hostCfg) hostTable
      [("name", PyVal.pstr "y")] [("name", PyVal.pstr "x")]
      = .error (.AttributeError "get_queryset") ∧
    EntityManager.update_or_create (Option.some hostCfg) hostTableEmpty
      [("name", PyVal.pstr "y")] [("name", PyVal.pstr "x")]
      = .ok ({ rows := [{ fields := [("name", PyVal.pstr "x")], eav_pending := [] }] },
             { fields := [("name", PyVal.pstr "x")], eav_pending := [] }, true) :=
  ⟨rfl, rfl⟩

/-- Claim C5: the claim says `validate_attributes` raises
`IllegalAssignmentException` iff there is an unmatched stored slug or an
invalid pending key — in particular it must *not* raise when everything
is legal. But `get_all_attributes` (called at the top of the loop)
caches the queryset in the proxy's `__dict__` under `_attributes`, and
`get_object_attributes()` subtracts only `instance` and `ct` — so after
a clean pass the illegal set always contains `_attributes` and the
exception is always raised: here, on an entity with one perfectly legal
stored value and no pending assignments. The second conjunct shows
`validate_attributes` can never return successfully for any entity whose
attribute slugs do not include the literal `_attributes`. -/
theorem claim5_illegal_assignment_always_raised :
    Entity.validate_attributes
      { dbEmpty with
        values := [{ blankRow 1 1 1 7 with value_text := Option.some "red" }]
        next_value_id := 2 }
      [attrColor] entClean
      = .error (.IllegalAssignment
          "Instance of the class Patient cannot have values for attributes: _attributes.") ∧
    (∀ (db : DB) (attrs : List Attribute) (e : EavEntity),
      (∀ a ∈ attrs, a.slug ≠ "_attributes") →
      Entity.validate_attributes db attrs e ≠ .ok ()) := by
  constructor
  · rfl
  · intro db attrs e hslug
    unfold Entity.validate_attributes
    cases hg : get_values_dict db e.ct e.pk with
    | error ex => simp
    | ok vd0 =>
      simp only
      cases hl : validateLoop db e.pending attrs vd0 with
      | error ex => simp
      | ok leftover =>
        simp only
        have hmem : "_attributes" ∈
            ((e.pending.map (fun kv => kv.1)) ++ ["_attributes"]).filter
              (fun k => !((attrs.map (fun a => a.slug)).contains k)) := by
          rw [List.mem_filter]
          refine ⟨by simp, ?_⟩
          simp only [Bool.not_eq_true']
          rw [List.contains_eq_any_beq, List.any_eq_false]
          intro x hx
          rcases List.mem_map.mp hx with ⟨a, ha, rfl⟩
          simpa using (hslug a ha).symm
        by_cases hleft : leftover.isEmpty = true
        · rw [if_pos hleft]
          cases hfil : ((e.pending.map (fun kv => kv.1)) ++ ["_attributes"]).filter
              (fun k => !((attrs.map (fun a => a.slug)).contains k)) with
          | nil => rw [hfil] at hmem; simp at hmem
          | cons k ks => simp
        · rw [if_neg hleft]
          cases hfil : leftover.map (fun kv => kv.1) with
          | nil =>
            exfalso
            apply hleft
            have hleq : leftover = [] := List.map_eq_nil_iff.mp hfil
            rw [hleq]
            rfl
          | cons k ks => simp

/-- Witness for C5 discharging the slug hypothesis concretely. -/
theorem claim5_witness : Entity.validate_attributes dbEmpty [attrColor] entClean ≠ .ok () :=
  claim5_illegal_assignment_always_raised.2 dbEmpty [attrColor] entClean
    (by intro a ha; simp [attrColor] at ha ⊢; rw [ha]; decide)

/-- Claim C6: `save_value(entity, None)` with no existing row for the
pair is a no-op; two consecutive `save_value` calls with the same
non-empty value leave exactly one `Value` row for the pair, and the
second call inserts no additional row (an update, not a duplicate
insert), preserving the at-most-one-row-per-pair invariant. -/
theorem claim6_save_value_idempotence :
    ∀ (db : DB) (a : Attribute) (ct : Nat) (pk : Int) (v : PyVal),
      ((∀ r ∈ db.values, valueKeyMatch a.id ct pk r = false) →
        Attribute.save_value db a ct pk PyVal.pnone = .ok db) ∧
      (∀ db1 db2, isEmptyVal v = false →
        Attribute.save_value db a ct pk v = .ok db1 →
        Attribute.save_value db1 a ct pk v = .ok db2 →
        (db2.values.filter (valueKeyMatch a.id ct pk)).length = 1 ∧
        db2.values.length = db1.values.length ∧
        (wfDB db → wfDB db2)) := by
  intro db a ct pk v
  constructor
  · intro hnone
    rw [save_value_empty (show isEmptyVal PyVal.pnone = true from rfl)]
    have hfeq : db.values.filter (fun r => !(valueKeyMatch a.id ct pk r)) = db.values := by
      rw [List.filter_eq_self]
      intro r hr
      simp [hnone r hr]
    rw [hfeq]
  · intro db1 db2 hne hok1 hok2
    obtain ⟨u1, hk1, hu1⟩ := save_nonempty_uoc hne hok1
    obtain ⟨u2, hk2, hu2⟩ := save_nonempty_uoc hne hok2
    obtain ⟨r1, hf1⟩ := uoc_filter hk1 hu1
    refine ⟨?_, ?_, ?_⟩
    · obtain ⟨r2, hf2⟩ := uoc_filter hk2 hu2
      rw [hf2]
      rfl
    · rcases uoc_len hu2 with ⟨hnil, _⟩ | ⟨_, hlen⟩
      · rw [hf1] at hnil
        simp at hnil
      · exact hlen
    · intro hwf
      exact uoc_wf hk2 hu2 (uoc_wf hk1 hu1 hwf)

/-- Witness for C6 at a concrete attribute and value: `color = "red"`
saved twice onto an empty store. -/
theorem claim6_witness :
    Attribute.save_value dbEmpty attrColor 1 7 PyVal.pnone = .ok dbEmpty ∧
    ((dbRed.values.filter (valueKeyMatch attrColor.id 1 7)).length = 1 ∧
      dbRed.values.length = dbRed.values.length ∧
      (wfDB dbEmpty → wfDB dbRed)) :=
  ⟨(claim6_save_value_idempotence dbEmpty attrColor 1 7 (PyVal.pstr "red")).1
      (by intro r hr; simp [dbEmpty] at hr),
   (claim6_save_value_idempotence dbEmpty attrColor 1 7 (PyVal.pstr "red")).2
      dbRed dbRed rfl rfl rfl⟩

/-- Claim C7: for a multi-choice attribute and a non-empty collection of
saved choice tokens, a successful `save_value` leaves exactly one
`Value` row for the pair whose associative choice set equals exactly the
set of provided token ids — independent of whatever choice set a
pre-existing row carried (the set is cleared before the new tokens are
added: full replacement, not a merge). -/
theorem claim7_multi_choice_full_replace :
    ∀ (db : DB) (a : Attribute) (ct : Nat) (pk : Int) (evs : List EnumValueRow) (db2 : DB),
      a.datatype = .enum_multi →
      evs ≠ [] →
      Attribute.save_value db a ct pk
        (PyVal.plist (evs.map (fun e => PyVal.enumEV (Option.some e.id) e.value))) = .ok db2 →
      (db2.values.filter (valueKeyMatch a.id ct pk)).length = 1 ∧
      (∀ r ∈ db2.values.filter (valueKeyMatch a.id ct pk),
        r.value_enum_multi.Nodup ∧
        (∀ j, j ∈ r.value_enum_multi ↔ j ∈ evs.map (fun e => e.id))) := by
  intro db a ct pk evs db2 hdt hevs hok
  have hne : isEmptyVal (PyVal.plist (evs.map (fun e => PyVal.enumEV (Option.some e.id) e.value)))
      = false := by
    cases evs with
    | nil => exact absurd rfl hevs
    | cons e evs => rfl
  rw [save_value_multi hne hdt (evIds_map evs)] at hok
  obtain ⟨r0, hf⟩ := uoc_filter (multiUpd_key (evs.map (fun e => e.id)) a.id ct pk) hok
  rw [hf]
  refine ⟨rfl, ?_⟩
  intro r hr
  rw [List.mem_singleton] at hr
  subst hr
  refine ⟨m2mAdd_nodup _ [] List.nodup_nil, ?_⟩
  intro j
  have hm := m2mAdd_mem (evs.map (fun e => e.id)) [] j
  simp only [List.not_mem_nil, false_or] at hm
  exact hm

/-- Witness for C7: saving `tags = [yes]` on the empty store. -/
theorem claim7_witness :
    (dbTags.values.filter (valueKeyMatch attrTags.id 1 7)).length = 1 :=
  (claim7_multi_choice_full_replace dbEmpty attrTags 1 7 [evYes] dbTags rfl
    (by decide) rfl).1

theorem anyMapEq {α β : Type} (f : α → β) (p : β → Bool) (l : List α) :
    (l.map f).any p = l.any (fun a => p (f a)) := by
  induction l with
  | nil => rfl
  | cons x l ih => simp [List.any_cons, ih]

theorem strip_tokenVal (toks : List (Option Nat × String)) :
    (toks.map tokenVal).map (fun x =>
        match x with
        | PyVal.enumEV _ s => PyVal.pstr s
        | y => y)
      = toks.map (fun t => PyVal.pstr t.2) := by
  rw [List.map_map]
  apply List.map_congr_left
  intro t _
  rcases t with ⟨oi, s⟩
  cases oi <;> rfl

theorem multi_validator_tokens (toks : List (Option Nat × String)) :
    validate_enum_multi (PyVal.plist (toks.map tokenVal)) = .ok () := by
  have hany : ((toks.map tokenVal).any (fun v =>
      match v with
      | PyVal.enumEV Option.none _ => true
      | _ => false)) = false := by
    rw [anyMapEq, List.any_eq_false]
    intro t _
    rcases t with ⟨oi, s⟩
    cases oi <;> simp [tokenVal]
  simp [validate_enum_multi, hany]

/-- Claim C3: single-choice `validate_value` succeeds iff the provided
token's string form is among the group's token strings; multi-choice
succeeds iff the count of matching group members equals the number of
provided elements — equivalently (when the group's token strings are
distinct, the documented invariant for `EnumValue.value`) iff every
provided string is a member *and* the provided strings are
duplicate-free, so non-members and duplicates that collapse under
membership both fail. -/
theorem claim3_choice_membership :
    ∀ (db : DB) (a : Attribute) (gid : Nat) (members : List EnumValueRow),
      a.enum_group = Option.some gid →
      enumGroupMembers db gid = .ok members →
      ((a.datatype = .enum →
        ∀ t : Option Nat × String,
          (Attribute.validate_value db a (tokenVal t) = .ok () ↔
            t.2 ∈ members.map (fun ev => ev.value))) ∧
       (a.datatype = .enum_multi →
        (members.map (fun ev => ev.value)).Nodup →
        ∀ toks : List (Option Nat × String),
          (Attribute.validate_value db a (PyVal.plist (toks.map tokenVal)) = .ok () ↔
            ((∀ s ∈ toks.map (fun t => t.2), s ∈ members.map (fun ev => ev.value)) ∧
              (toks.map (fun t => t.2)).Nodup)))) := by
  intro db a gid members hg hm
  constructor
  · intro hdt t
    rcases t with ⟨oi, s⟩
    have hiff : (members.any (fun ev => ev.value = s) = true) ↔
        s ∈ members.map (fun ev => ev.value) := by
      rw [List.any_eq_true]
      constructor
      · rintro ⟨ev, hev, heq⟩
        simp only [decide_eq_true_eq] at heq
        exact List.mem_map.mpr ⟨ev, hev, heq⟩
      · intro h
        rcases List.mem_map.mp h with ⟨ev, hev, heq⟩
        exact ⟨ev, hev, by simp [heq]⟩
    unfold Attribute.validate_value
    rw [hdt, hg]
    cases oi with
    | none =>
      simp only [datatypeValidator, tokenVal, validate_enum, hm, lookupStr, if_pos rfl, if_true]
      rw [← hiff]
      by_cases hhit : (members.any (fun ev => ev.value = s)) = true
      · simp [hhit]
      · simp [hhit]
    | some i =>
      simp only [datatypeValidator, tokenVal, validate_enum, hm, lookupStr, if_pos rfl, if_true]
      rw [← hiff]
      by_cases hhit : (members.any (fun ev => ev.value = s)) = true
      · simp [hhit]
      · simp [hhit]
  · intro hdt hnd toks
    unfold Attribute.validate_value
    rw [hdt, hg]
    have hval := multi_validator_tokens toks
    simp only [datatypeValidator, hval, hm, pyAll]
    rw [if_neg (by decide)]
    simp only [if_true]
    rw [strip_tokenVal toks]
    have hcnt : members.countP (fun ev =>
        (toks.map (fun t => PyVal.pstr t.2)).any (fun x =>
          match lookupStr x with
          | Option.some s => ev.value = s
          | Option.none => false))
        = (members.map (fun ev => ev.value)).countP
            (fun m => (toks.map (fun t => t.2)).any (fun s => m = s)) := by
      rw [List.countP_map]
      apply List.countP_congr
      intro ev _
      have hb : ((toks.map (fun t => PyVal.pstr t.2)).any (fun x =>
          match lookupStr x with
          | Option.some s => ev.value = s
          | Option.none => false))
        = ((toks.map (fun t => t.2)).any (fun s => ev.value = s)) := by
        rw [anyMapEq, anyMapEq]
        rfl
      simp only [Function.comp]
      rw [hb]
    rw [hcnt]
    have hkey := countP_mem_eq_length_iff (members.map (fun ev => ev.value))
      (toks.map (fun t => t.2)) hnd
    rw [← hkey]
    have hlen : (toks.map (fun t => PyVal.pstr t.2)).length = (toks.map (fun t => t.2)).length := by
      simp
    rw [hlen]
    by_cases hcc : (members.map (fun ev => ev.value)).countP
        (fun m => (toks.map (fun t => t.2)).any (fun s => m = s))
        = (toks.map (fun t => t.2)).length
    · simp [hcc]
    · simp [hcc]

/-- Witness for C3: the raw string `yes` validates against the
single-choice `fever` attribute over the `yes`/`no` group. -/
theorem claim3_witness :
    Attribute.validate_value dbEmpty attrFever (tokenVal (Option.none, "yes")) = .ok () :=
  ((claim3_choice_membership dbEmpty attrFever 1 [evYes, evNo] rfl rfl).1 rfl
    (Option.none, "yes")).mpr (by decide)

/-- Claim C4: `validate_attributes` fails with a `ValidationError` naming
the slug for a required attribute that has neither a pending assignment
nor a stored value (regardless of what the remaining attributes hold);
and the per-attribute step never treats a present-but-falsy resolved
value (`False`, `0`) as missing — it hands it to `validate_value`, so a
required attribute with such a pending value passes its step. -/
theorem claim4_required_enforcement :
    (∀ (db : DB) (pre post : List Attribute) (a : Attribute) (e : EavEntity)
        (vd0 vd1 : List (String × PyVal)),
      a.required = true →
      (∀ kv ∈ e.pending, kv.1 ≠ a.slug) →
      (∀ kv ∈ vd1, kv.1 ≠ a.slug) →
      get_values_dict db e.ct e.pk = .ok vd0 →
      validateLoop db e.pending pre vd0 = .ok vd1 →
      Entity.validate_attributes db (pre ++ a :: post) e =
        .error (.ValidationError (a.slug ++ " EAV field cannot be blank"))) ∧
    (∀ (db : DB) (pending vd : List (String × PyVal)) (a : Attribute) (v : PyVal),
      a.required = true →
      dictGet pending a.slug = Option.some v →
      (v = PyVal.pbool false ∨ v = PyVal.pint 0) →
      Attribute.validate_value db a v = .ok () →
      attrStep db pending vd a = .ok (dictPop vd a.slug)) := by
  constructor
  · intro db pre post a e vd0 vd1 hreq hpend hvd1 hgv hloop
    have hstep : attrStep db e.pending vd1 a =
        .error (.ValidationError (a.slug ++ " EAV field cannot be blank")) := by
      unfold attrStep
      rw [dictGet_eq_none hpend, dictGet_eq_none hvd1]
      simp [hreq]
    have hloop2 : validateLoop db e.pending (pre ++ a :: post) vd0 =
        .error (.ValidationError (a.slug ++ " EAV field cannot be blank")) := by
      rw [validateLoop_append db e.pending pre (a :: post) vd0, hloop]
      unfold validateLoop
      rw [hstep]
    unfold Entity.validate_attributes
    rw [hgv]
    simp only
    rw [hloop2]
  · intro db pending vd a v hreq hget hv hval
    unfold attrStep
    rw [hget]
    rcases hv with rfl | rfl
    · simp [hval]
    · simp [hval]

/-- Witness for C4: the required `height` attribute missing on a clean
entity fails with the blank-field error, while a pending `height = 0`
passes its validation step. -/
theorem claim4_witness :
    Entity.validate_attributes dbEmpty [attrHeight] entClean =
      .error (.ValidationError "height EAV field cannot be blank") ∧
    attrStep dbEmpty [("height", PyVal.pint 0)] [] attrHeight = .ok [] :=
  ⟨claim4_required_enforcement.1 dbEmpty [] [] attrHeight entClean [] [] rfl
      (by intro kv h; simp [entClean] at h) (by intro kv h; simp at h) rfl rfl,
   claim4_required_enforcement.2 dbEmpty [("height", PyVal.pint 0)] [] attrHeight
      (PyVal.pint 0) rfl rfl (Or.inr rfl) rfl⟩

/-- Claim C1 counterexample: the empty string is a valid value for a
text attribute (`validate_value` accepts it), but `save_value` takes the
empty-value branch and *deletes* rather than stores — afterwards there
is no stored `Value` row at all, so reading the pair raises
`Value.DoesNotExist` instead of yielding a value equal to `v`. -/
theorem claim1_counterexample :
    Attribute.validate_value dbEmpty attrColor (PyVal.pstr "") = .ok () ∧
    Attribute.save_value dbEmpty attrColor 1 7 (PyVal.pstr "") = .ok dbEmpty ∧
    readValue dbEmpty attrColor 1 7 = .error .DoesNotExist :=
  ⟨rfl, rfl, rfl⟩

/-- Claim C1 as amended: for every datatype and every *canonically
typed*, non-empty value (see `canonicalVal`; the decimal restriction to
two decimal places reflects the `DecimalField(decimal_places=2)` column,
and values of non-canonical Python type can be altered by the database
layer on the way in, e.g. `"42"` stored through an integer column or a
finer decimal quantized), a successful `save_value` followed by reading
the stored row's `value` property — which dispatches on the owning
attribute's datatype — yields the saved value back. -/
theorem claim1_roundtrip_canonical :
    ∀ (db : DB) (a : Attribute) (ct : Nat) (pk : Int) (v : PyVal) (db2 : DB),
      wfDB db →
      canonicalVal db a.datatype v →
      isEmptyVal v = false →
      Attribute.save_value db a ct pk v = .ok db2 →
      readValue db2 a ct pk = .ok v := by
  intro db a ct pk v db2 hwf hcan hne hok
  rcases a with ⟨aid, adt, aname, aslug, areq, agrp, aord⟩
  cases adt with
  | text =>
    obtain ⟨s, rfl⟩ := hcan
    have hcol : setColumn Datatype.text (PyVal.pstr s)
        = .ok (fun r => { r with value_text := Option.some s }) := rfl
    rw [save_value_nonmulti hne (by simp) hcol] at hok
    obtain ⟨r0, hf⟩ := uoc_filter (setColumn_key hcol aid ct pk) hok
    unfold readValue
    rw [hf]
    rfl
  | float =>
    obtain ⟨q, rfl⟩ := hcan
    have hcol : setColumn Datatype.float (PyVal.pfloat q)
        = .ok (fun r => { r with value_float := Option.some q }) := rfl
    rw [save_value_nonmulti hne (by simp) hcol] at hok
    obtain ⟨r0, hf⟩ := uoc_filter (setColumn_key hcol aid ct pk) hok
    unfold readValue
    rw [hf]
    rfl
  | decimal =>
    obtain ⟨q, rfl, hden⟩ := hcan
    have hcol : setColumn Datatype.decimal (PyVal.pdec q)
        = .ok (fun r => { r with value_decimal := Option.some q }) := rfl
    rw [save_value_nonmulti hne (by simp) hcol] at hok
    obtain ⟨r0, hf⟩ := uoc_filter (setColumn_key hcol aid ct pk) hok
    unfold readValue
    rw [hf]
    rfl
  | int =>
    obtain ⟨n, rfl⟩ := hcan
    have hcol : setColumn Datatype.int (PyVal.pint n)
        = .ok (fun r => { r with value_int := Option.some n }) := rfl
    rw [save_value_nonmulti hne (by simp) hcol] at hok
    obtain ⟨r0, hf⟩ := uoc_filter (setColumn_key hcol aid ct pk) hok
    unfold readValue
    rw [hf]
    rfl
  | date =>
    obtain ⟨t, rfl⟩ := hcan
    have hcol : setColumn Datatype.date (PyVal.pdate t)
        = .ok (fun r => { r with value_date := Option.some t }) := rfl
    rw [save_value_nonmulti hne (by simp) hcol] at hok
    obtain ⟨r0, hf⟩ := uoc_filter (setColumn_key hcol aid ct pk) hok
    unfold readValue
    rw [hf]
    rfl
  | bool =>
    obtain ⟨b, rfl⟩ := hcan
    have hcol : setColumn Datatype.bool (PyVal.pbool b)
        = .ok (fun r => { r with value_bool := Option.some b }) := rfl
    rw [save_value_nonmulti hne (by simp) hcol] at hok
    obtain ⟨r0, hf⟩ := uoc_filter (setColumn_key hcol aid ct pk) hok
    unfold readValue
    rw [hf]
    rfl
  | object =>
    obtain ⟨c, p, rfl⟩ := hcan
    have hcol : setColumn Datatype.object (PyVal.pobj c (Option.some p))
        = .ok (fun r => { r with generic_value_ct := Option.some c
                                 generic_value_id := Option.some p }) := rfl
    rw [save_value_nonmulti hne (by simp) hcol] at hok
    obtain ⟨r0, hf⟩ := uoc_filter (setColumn_key hcol aid ct pk) hok
    unfold readValue
    rw [hf]
    rfl
  | enum =>
    obtain ⟨ev, hmem, rfl⟩ := hcan
    have hcol : setColumn Datatype.enum (PyVal.enumEV (Option.some ev.id) ev.value)
        = .ok (fun r => { r with value_enum := Option.some ev.id }) := rfl
    rw [save_value_nonmulti hne (by simp) hcol] at hok
    have htab := (uoc_tables hok).1
    obtain ⟨r0, hf⟩ := uoc_filter (setColumn_key hcol aid ct pk) hok
    unfold readValue
    rw [hf]
    have hread : rowValue db2 Datatype.enum { r0 with value_enum := Option.some ev.id }
        = (match db2.enum_values.find? (fun x => x.id = ev.id) with
           | Option.some ev2 => Except.ok (PyVal.enumEV (Option.some ev2.id) ev2.value)
           | Option.none => Except.error PyExc.DoesNotExist) := rfl
    show rowValue db2 Datatype.enum { r0 with value_enum := Option.some ev.id }
      = Except.ok (PyVal.enumEV (Option.some ev.id) ev.value)
    rw [hread, htab, find_ev db.enum_values ev hmem hwf.2]
  | enum_multi =>
    obtain ⟨evs, rfl, hmemAll, hndids⟩ := hcan
    rw [save_value_multi hne rfl (evIds_map evs)] at hok
    have htab := (uoc_tables hok).1
    obtain ⟨r0, hf⟩ := uoc_filter (multiUpd_key (evs.map (fun e => e.id)) aid ct pk) hok
    unfold readValue
    rw [hf]
    have hm2m : m2mAdd [] (evs.map (fun e => e.id)) = evs.map (fun e => e.id) :=
      m2mAdd_nil_of_nodup _ hndids
    show rowValue db2 Datatype.enum_multi
        { r0 with value_enum_multi := m2mAdd [] (evs.map (fun e => e.id)) }
      = Except.ok (PyVal.plist (evs.map (fun e => PyVal.enumEV (Option.some e.id) e.value)))
    have hread : rowValue db2 Datatype.enum_multi
        { r0 with value_enum_multi := m2mAdd [] (evs.map (fun e => e.id)) }
        = (match (m2mAdd [] (evs.map (fun e => e.id))).mapM
              (fun i => db2.enum_values.find? (fun x => x.id = i)) with
           | Option.some evs2 =>
             Except.ok (PyVal.plist (evs2.map (fun e => PyVal.enumEV (Option.some e.id) e.value)))
           | Option.none => Except.error PyExc.DoesNotExist) := rfl
    rw [hread, hm2m, htab, mapM_find_evs db.enum_values hwf.2 evs hmemAll]
  | json =>
    obtain ⟨kvs, rfl⟩ := hcan
    have hcol : setColumn Datatype.json (PyVal.pdict kvs)
        = .ok (fun r => { r with value_text := Option.some (jsonDumps (JVal.jobj kvs)) }) := rfl
    rw [save_value_nonmulti hne (by simp) hcol] at hok
    obtain ⟨r0, hf⟩ := uoc_filter (setColumn_key hcol aid ct pk) hok
    unfold readValue
    rw [hf]
    have hjson : value_json_get (Option.some (jsonDumps (JVal.jobj kvs))) = .ok (JVal.jobj kvs) := by
      show (if jsonDumps (JVal.jobj kvs) = "" then Except.ok (JVal.jobj [])
            else match jsonLoads (jsonDumps (JVal.jobj kvs)) with
                 | Option.some v => Except.ok v
                 | Option.none => Except.error PyExc.JSONDecodeError) = Except.ok (JVal.jobj kvs)
      rw [if_neg (jsonDumps_ne_empty _), jsonLoads_jsonDumps]
    have hread : rowValue db2 Datatype.json
        { r0 with value_text := Option.some (jsonDumps (JVal.jobj kvs)) }
        = (match value_json_get (Option.some (jsonDumps (JVal.jobj kvs))) with
           | Except.ok j => Except.ok (jvalToPy j)
           | Except.error e => Except.error e) := rfl
    show rowValue db2 Datatype.json
        { r0 with value_text := Option.some (jsonDumps (JVal.jobj kvs)) }
      = Except.ok (PyVal.pdict kvs)
    rw [hread, hjson]
    rfl

/-- Witness for C1 (amended): storing and re-reading `color = "red"`. -/
theorem claim1_witness : readValue dbRed attrColor 1 7 = .ok (PyVal.pstr "red") :=
  claim1_roundtrip_canonical dbEmpty attrColor 1 7 (PyVal.pstr "red") dbRed
    (by constructor <;> simp [dbEmpty, evYes, evNo]) ⟨"red", rfl⟩ rfl rfl
